import Mathlib

/-!
Verification of the logicbot Slack bot core: the round state codec
(`src/helpers/rounds.ts`), the scoreboard aggregator
(`src/helpers/scoreboard.ts`), the validation helpers, and the round
lifecycle handlers (`confirm_solve`, `confirm_private_solve`,
`close_round`, `edit_question_modal`, `reaction_added`).

The JavaScript runtime pieces the code calls into are modelled
explicitly and executably:
 - `JSON.stringify` / `JSON.parse` are modelled by `jsonStringify` /
   `jsonParse` over an inductive `Json` value type.  JSON numbers are
   modelled as integers (the repository only ever stores integer scores
   and string-valued round fields); JS object key order is the
   insertion-order association list.
 - Node's `Buffer.from(s).toString('base64')` and the lenient
   `Buffer.from(s, 'base64').toString('utf-8')` are modelled by
   `b64encode` / `b64decode` over UTF-8 byte lists (`utf8Encode` /
   `utf8Decode`).  The lenient decoder skips characters outside the
   base64 alphabet and stops at the first `=` padding character, as
   Node does.  The UTF-8 decoder emits U+FFFD for invalid lead or
   continuation bytes (overlong-form rejection is not modelled; no
   theorem here depends on it).
All Slack API calls (`chat.update`, `chat.postMessage`, DMs, etc.) are
modelled as succeeding writes against an explicit `World` state holding
the round control message content and the stored scoreboard data.
-/

namespace LogicBot

/-! ### Association lists (JS objects keyed by strings)

JS objects have unique keys, so removing the first binding is the same
as removing every binding; `alDrop` removes all of them so that its
lookup behaviour is unconditional. -/

def alGet {α : Type} : List (String × α) → String → Option α
  | [], _ => none
  | (k, v) :: t, key => if k = key then some v else alGet t key

def alSet {α : Type} : List (String × α) → String → α → List (String × α)
  | [], key, v => [(key, v)]
  | (k, w) :: t, key, v => if k = key then (k, v) :: t else (k, w) :: alSet t key v

def alDrop {α : Type} : List (String × α) → String → List (String × α)
  | [], _ => []
  | (k, w) :: t, key => if k = key then alDrop t key else (k, w) :: alDrop t key

/-! ### JSON values -/

inductive Json where
  | jnull
  | jbool (b : Bool)
  | jnum (n : Int)
  | jstr (s : String)
  | jarr (items : List Json)
  | jobj (fields : List (String × Json))
deriving Repr

/-- JS truthiness of a decoded JSON value (`if (decoded) ...`):
`null`, `false`, `0` and the empty string are falsy. -/
def jsTruthy : Json → Bool
  | .jnull => false
  | .jbool b => b
  | .jnum n => decide (n ≠ 0)
  | .jstr s => decide (s ≠ "")
  | .jarr _ => true
  | .jobj _ => true

/-! ### `JSON.stringify` -/

/-- Lowercase hex digit, as `JSON.stringify` emits in `\u00XX` escapes. -/
def hexChar (n : Nat) : Char :=
  if n < 10 then Char.ofNat (48 + n) else Char.ofNat (87 + n)

/-- JSON escaping of a single character (ECMAScript `QuoteJSONString`). -/
def escapeChar (c : Char) : List Char :=
  if c = '"' then ['\\', '"']
  else if c = '\\' then ['\\', '\\']
  else if c = Char.ofNat 8 then ['\\', 'b']
  else if c = '\t' then ['\\', 't']
  else if c = '\n' then ['\\', 'n']
  else if c = Char.ofNat 12 then ['\\', 'f']
  else if c = '\r' then ['\\', 'r']
  else if c.toNat < 32 then
    ['\\', 'u', '0', '0', hexChar (c.toNat / 16), hexChar (c.toNat % 16)]
  else [c]

/-- A JSON string literal: quote, escaped body, quote. -/
def quoteChars (s : String) : List Char :=
  '"' :: ((s.data.map escapeChar).flatten ++ ['"'])

/-- Decimal digits of a natural number, most significant first. -/
def natChars (n : Nat) : List Char :=
  if n < 10 then [Char.ofNat (48 + n)]
  else natChars (n / 10) ++ [Char.ofNat (48 + n % 10)]
termination_by n
decreasing_by omega

/-- Decimal rendering of an integer (what `JSON.stringify` prints for
integral numbers). -/
def intChars (i : Int) : List Char :=
  if i < 0 then '-' :: natChars i.natAbs else natChars i.natAbs

mutual

/-- `JSON.stringify`, to a character list (no added whitespace). -/
def jChars : Json → List Char
  | .jnull => ['n', 'u', 'l', 'l']
  | .jbool true => ['t', 'r', 'u', 'e']
  | .jbool false => ['f', 'a', 'l', 's', 'e']
  | .jnum n => intChars n
  | .jstr s => quoteChars s
  | .jarr items => '[' :: (jCharsItems items ++ [']'])
  | .jobj fields => '\x7b' :: (jCharsFields fields ++ ['\x7d'])

def jCharsItems : List Json → List Char
  | [] => []
  | [x] => jChars x
  | x :: y :: rest => jChars x ++ ',' :: jCharsItems (y :: rest)

def jCharsFields : List (String × Json) → List Char
  | [] => []
  | [(k, v)] => quoteChars k ++ ':' :: jChars v
  | (k, v) :: f :: rest => quoteChars k ++ ':' :: jChars v ++ ',' :: jCharsFields (f :: rest)

end

def jsonStringify (j : Json) : String := String.mk (jChars j)

/-! ### `JSON.parse` -/

/-- The JSON whitespace characters. -/
def jsonWs (c : Char) : Bool :=
  c = ' ' || c = '\t' || c = '\n' || c = '\r'

def dropWs (cs : List Char) : List Char := cs.dropWhile jsonWs

/-- Value of one hex digit. -/
def hexNum (c : Char) : Option Nat :=
  if '0' ≤ c && c ≤ '9' then some (c.toNat - 48)
  else if 'a' ≤ c && c ≤ 'f' then some (c.toNat - 87)
  else if 'A' ≤ c && c ≤ 'F' then some (c.toNat - 55)
  else none

/-- Single-character escapes accepted by JSON. -/
def escCode : Char → Option Char
  | '"' => some '"'
  | '\\' => some '\\'
  | '/' => some '/'
  | 'b' => some (Char.ofNat 8)
  | 'f' => some (Char.ofNat 12)
  | 'n' => some '\n'
  | 'r' => some '\r'
  | 't' => some '\t'
  | _ => none

/-- Parse a JSON string body after the opening quote.  Returns the body
characters and the remainder after the closing quote.  Raw control
characters are rejected, as in `JSON.parse`. -/
def jStrBody : List Char → Option (List Char × List Char)
  | [] => none
  | c :: rest =>
    if c = '"' then some ([], rest)
    else if c = '\\' then
      match rest with
      | [] => none
      | e :: rest1 =>
        if e = 'u' then
          match rest1 with
          | h1 :: h2 :: h3 :: h4 :: rest2 =>
            match hexNum h1, hexNum h2, hexNum h3, hexNum h4 with
            | some a, some b, some cc, some dd =>
              match jStrBody rest2 with
              | some (cs, r) => some (Char.ofNat (((a * 16 + b) * 16 + cc) * 16 + dd) :: cs, r)
              | none => none
            | _, _, _, _ => none
          | _ => none
        else
          match escCode e with
          | some ch =>
            match jStrBody rest1 with
            | some (cs, r) => some (ch :: cs, r)
            | none => none
          | none => none
    else if c.toNat < 32 then none
    else
      match jStrBody rest with
      | some (cs, r) => some (c :: cs, r)
      | none => none

/-- Longest digit prefix and the remainder. -/
def digitSpan : List Char → List Char × List Char
  | [] => ([], [])
  | c :: rest =>
    if c.isDigit then
      let (ds, r) := digitSpan rest
      (c :: ds, r)
    else ([], c :: rest)

def digitsNat (ds : List Char) : Nat :=
  ds.foldl (fun a c => a * 10 + (c.toNat - 48)) 0

mutual

/-- Fuel-indexed recursive-descent JSON parser (models `JSON.parse` on
the fragment the repository can encounter; numbers are restricted to
optionally-signed integer literals). -/
def jParse : Nat → List Char → Option (Json × List Char)
  | 0, _ => none
  | fuel + 1, cs0 =>
    match dropWs cs0 with
    | [] => none
    | c :: rest =>
      if c = 'n' then
        match rest with
        | 'u' :: 'l' :: 'l' :: r => some (.jnull, r)
        | _ => none
      else if c = 't' then
        match rest with
        | 'r' :: 'u' :: 'e' :: r => some (.jbool true, r)
        | _ => none
      else if c = 'f' then
        match rest with
        | 'a' :: 'l' :: 's' :: 'e' :: r => some (.jbool false, r)
        | _ => none
      else if c = '"' then
        match jStrBody rest with
        | some (cs, r) => some (.jstr (String.mk cs), r)
        | none => none
      else if c = '-' then
        match digitSpan rest with
        | ([], _) => none
        | (ds, r) => some (.jnum (-(digitsNat ds : Int)), r)
      else if c.isDigit then
        match digitSpan (c :: rest) with
        | (ds, r) => some (.jnum (digitsNat ds : Int), r)
      else if c = '[' then
        match dropWs rest with
        | [] => none
        | c1 :: r1 =>
          if c1 = ']' then some (.jarr [], r1)
          else
            match jParse fuel (c1 :: r1) with
            | some (v, r2) =>
              match jItems fuel r2 with
              | some (vs, r3) => some (.jarr (v :: vs), r3)
              | none => none
            | none => none
      else if c = '\x7b' then
        match dropWs rest with
        | [] => none
        | c1 :: r1 =>
          if c1 = '\x7d' then some (.jobj [], r1)
          else
            match jMember fuel (c1 :: r1) with
            | some (kv, r2) =>
              match jFields fuel r2 with
              | some (kvs, r3) => some (.jobj (kv :: kvs), r3)
              | none => none
            | none => none
      else none

/-- After the first array element: `(',' value)* ']'`. -/
def jItems : Nat → List Char → Option (List Json × List Char)
  | 0, _ => none
  | fuel + 1, cs =>
    match dropWs cs with
    | [] => none
    | c :: r =>
      if c = ']' then some ([], r)
      else if c = ',' then
        match jParse fuel r with
        | some (v, r1) =>
          match jItems fuel r1 with
          | some (vs, r2) => some (v :: vs, r2)
          | none => none
        | none => none
      else none

/-- One object member: `string ':' value`. -/
def jMember : Nat → List Char → Option ((String × Json) × List Char)
  | 0, _ => none
  | fuel + 1, cs =>
    match dropWs cs with
    | [] => none
    | c :: r =>
      if c = '"' then
        match jStrBody r with
        | some (kcs, r1) =>
          match dropWs r1 with
          | [] => none
          | c2 :: r2 =>
            if c2 = ':' then
              match jParse fuel r2 with
              | some (v, r3) => some ((String.mk kcs, v), r3)
              | none => none
            else none
        | none => none
      else none

/-- After the first object member: `(',' member)* '}'`. -/
def jFields : Nat → List Char → Option (List (String × Json) × List Char)
  | 0, _ => none
  | fuel + 1, cs =>
    match dropWs cs with
    | [] => none
    | c :: r =>
      if c = '\x7d' then some ([], r)
      else if c = ',' then
        match jMember fuel r with
        | some (kv, r1) =>
          match jFields fuel r1 with
          | some (kvs, r2) => some (kv :: kvs, r2)
          | none => none
        | none => none
      else none

end

/-- `JSON.parse`: parse one value, allow trailing whitespace only. -/
def jsonParse (s : String) : Option Json :=
  match jParse (s.data.length + 1) s.data with
  | some (j, r) => if dropWs r = [] then some j else none
  | none => none

/-- The remainder does not begin with a digit (so a greedy number parse
cannot run into it). -/
def notDigitHead : List Char → Prop
  | [] => True
  | c :: _ => c.isDigit = false

/-- Guard for the stringify/parse round trip: only a rendered number
constrains what may follow it. -/
def numGuard : Json → List Char → Prop
  | .jnum _, rest => notDigitHead rest
  | _, _ => True

/-- The tail of a rendered item list: each further element preceded by
a comma (so `jCharsItems (x :: xs) = jChars x ++ itemsSep xs`). -/
def itemsSep : List Json → List Char
  | [] => []
  | x :: xs => ',' :: (jChars x ++ itemsSep xs)

/-- The tail of a rendered member list. -/
def fieldsSep : List (String × Json) → List Char
  | [] => []
  | (k, v) :: fs => ',' :: (quoteChars k ++ ':' :: (jChars v ++ fieldsSep fs))

/-! ### UTF-8 (`Buffer.from(s)` / `buf.toString('utf-8')`) -/

/-- UTF-8 bytes of one Unicode scalar value. -/
def utf8Bytes (n : Nat) : List Nat :=
  if n < 0x80 then [n]
  else if n < 0x800 then [0xC0 + n / 0x40, 0x80 + n % 0x40]
  else if n < 0x10000 then
    [0xE0 + n / 0x1000, 0x80 + n / 0x40 % 0x40, 0x80 + n % 0x40]
  else
    [0xF0 + n / 0x40000, 0x80 + n / 0x1000 % 0x40, 0x80 + n / 0x40 % 0x40, 0x80 + n % 0x40]

def utf8Encode (s : String) : List Nat :=
  (s.data.map (fun c => utf8Bytes c.toNat)).flatten

/-- The U+FFFD replacement character. -/
def replChar : Char := Char.ofNat 0xFFFD

def isCont (b : Nat) : Bool := 0x80 ≤ b && b < 0xC0

mutual

/-- UTF-8 decoding with U+FFFD replacement on invalid lead or
continuation bytes (as `buf.toString('utf-8')`; overlong forms are not
re-checked, which no theorem here depends on). -/
def utf8Decode : List Nat → List Char
  | [] => []
  | b :: rest =>
    if b < 0x80 then Char.ofNat b :: utf8Decode rest
    else if b < 0xC0 then replChar :: utf8Decode rest
    else if b < 0xE0 then utf8Cont1 b rest
    else if b < 0xF0 then utf8Cont2 b rest
    else if b < 0xF8 then utf8Cont3 b rest
    else replChar :: utf8Decode rest
termination_by bs => (bs.length, 0)

/-- One expected continuation byte after a 2-byte lead. -/
def utf8Cont1 (b : Nat) : List Nat → List Char
  | b1 :: rest1 =>
    if isCont b1 then Char.ofNat ((b - 0xC0) * 0x40 + (b1 - 0x80)) :: utf8Decode rest1
    else replChar :: utf8Decode (b1 :: rest1)
  | [] => [replChar]
termination_by bs => (bs.length, 1)

/-- Two expected continuation bytes after a 3-byte lead. -/
def utf8Cont2 (b : Nat) : List Nat → List Char
  | b1 :: b2 :: rest2 =>
    if isCont b1 && isCont b2 then
      Char.ofNat ((b - 0xE0) * 0x1000 + (b1 - 0x80) * 0x40 + (b2 - 0x80)) :: utf8Decode rest2
    else replChar :: utf8Decode (b1 :: b2 :: rest2)
  | [b1] => replChar :: utf8Decode [b1]
  | [] => [replChar]
termination_by bs => (bs.length, 1)

/-- Three expected continuation bytes after a 4-byte lead. -/
def utf8Cont3 (b : Nat) : List Nat → List Char
  | b1 :: b2 :: b3 :: rest3 =>
    if isCont b1 && isCont b2 && isCont b3 then
      Char.ofNat ((b - 0xF0) * 0x40000 + (b1 - 0x80) * 0x1000 + (b2 - 0x80) * 0x40 + (b3 - 0x80))
        :: utf8Decode rest3
    else replChar :: utf8Decode (b1 :: b2 :: b3 :: rest3)
  | [b1, b2] => replChar :: utf8Decode [b1, b2]
  | [b1] => replChar :: utf8Decode [b1]
  | [] => [replChar]
termination_by bs => (bs.length, 1)

end

def utf8String (bs : List Nat) : String := String.mk (utf8Decode bs)

/-! ### Base64 (`buf.toString('base64')` / `Buffer.from(s, 'base64')`) -/

def b64alphabet : List Char :=
  "ABCDEFGHIJKLMNOPQRSTUVWXYZabcdefghijklmnopqrstuvwxyz0123456789+/".data

def b64chr (n : Nat) : Char := b64alphabet.getD n 'A'

/-- Index of a character in the base64 alphabet, if any. -/
def b64val (c : Char) : Option Nat :=
  alphaIdx b64alphabet c
where
  alphaIdx : List Char → Char → Option Nat
    | [], _ => none
    | a :: t, c => if a = c then some 0 else (alphaIdx t c).map (· + 1)

/-- Base64 characters of a byte list, including `=` padding. -/
def b64chunks : List Nat → List Char
  | b0 :: b1 :: b2 :: rest =>
    b64chr (b0 / 4) :: b64chr (b0 % 4 * 16 + b1 / 16) :: b64chr (b1 % 16 * 4 + b2 / 64)
      :: b64chr (b2 % 64) :: b64chunks rest
  | [b0, b1] => [b64chr (b0 / 4), b64chr (b0 % 4 * 16 + b1 / 16), b64chr (b1 % 16 * 4), '=']
  | [b0] => [b64chr (b0 / 4), b64chr (b0 % 4 * 16), '=', '=']
  | [] => []

def b64encode (bs : List Nat) : String := String.mk (b64chunks bs)

/-- Node's lenient base64 scan: keep alphabet characters, skip others,
stop at the first `=`. -/
def b64scan : List Char → List Nat
  | [] => []
  | c :: rest =>
    if c = '=' then []
    else
      match b64val c with
      | some v => v :: b64scan rest
      | none => b64scan rest

/-- Reassemble bytes from 6-bit values; a trailing group of fewer than
four values yields the bytes its complete 8-bit prefixes determine. -/
def b64bytes : List Nat → List Nat
  | v0 :: v1 :: v2 :: v3 :: rest =>
    (v0 * 4 + v1 / 16) :: (v1 % 16 * 16 + v2 / 4) :: (v2 % 4 * 64 + v3) :: b64bytes rest
  | [v0, v1, v2] => [v0 * 4 + v1 / 16, v1 % 16 * 16 + v2 / 4]
  | [v0, v1] => [v0 * 4 + v1 / 16]
  | [_] => []
  | [] => []

def b64decode (s : String) : List Nat := b64bytes (b64scan s.data)

/-! ### Round state codec (`src/helpers/rounds.ts`, `src/types.ts`) -/

inductive RoundStatus where
  | OPEN
  | SOLVED
  | CLOSED
deriving DecidableEq, Repr

structure RoundState where
  version : String
  op : String
  status : RoundStatus
  threadTs : String
  channelId : String
  question : Option String := none
  answer : Option String := none
deriving DecidableEq, Repr

def statusText : RoundStatus → String
  | .OPEN => "OPEN"
  | .SOLVED => "SOLVED"
  | .CLOSED => "CLOSED"

/-- The status-string dispatch in `parseRoundState` (any other token is
`null`, i.e. a parse failure). -/
def statusOfText (s : String) : Option RoundStatus :=
  if s = "OPEN" then some .OPEN
  else if s = "SOLVED" then some .SOLVED
  else if s = "CLOSED" then some .CLOSED
  else none

/-- The JS runtime object a `RoundState` is serialized from: fields in
declaration order, optional fields omitted when absent (as
`JSON.stringify` omits `undefined` properties). -/
def RoundState.toJson (r : RoundState) : Json :=
  .jobj
    ([("version", .jstr r.version), ("op", .jstr r.op),
      ("status", .jstr (statusText r.status)), ("threadTs", .jstr r.threadTs),
      ("channelId", .jstr r.channelId)]
     ++ (match r.question with | none => [] | some q => [("question", .jstr q)])
     ++ (match r.answer with | none => [] | some a => [("answer", .jstr a)]))

def encodeThreadTs (threadTs : String) : String := b64encode (utf8Encode threadTs)

def decodeThreadTs (encoded : String) : String := utf8String (b64decode encoded)

def encodeRoundState (state : RoundState) : String :=
  b64encode (utf8Encode (jsonStringify state.toJson))

/-- `decodeRoundState`: lenient base64 decode, then `JSON.parse` with
the raw result cast — no structural validation — so the value is an
arbitrary `Json`, not necessarily a round object. -/
def decodeRoundState (encoded : String) : Option Json :=
  jsonParse (utf8String (b64decode encoded))

def formatRoundState (state : RoundState) : String := encodeRoundState state

/-! #### Legacy fixed-grammar format

`/\[logic_round v(\d+)\]\s+op=(\w+)\s+status=(\w+)\s+threadTs=([\d.]+)\s+channelId=(\w+)(?:\s+answer=([^\]]+))?/`

Every capture class is disjoint from the character that follows it, so
greedy maximal munch coincides with the regex backtracking semantics.
`wsChar` covers the ASCII part of JS `\s` (the Unicode space classes
are omitted; none occur in the repository's messages). -/

def wordChar (c : Char) : Bool := c.isAlpha || c.isDigit || c = '_'

def wsChar (c : Char) : Bool :=
  c = ' ' || c = '\t' || c = '\n' || c = '\r' || c = Char.ofNat 11 || c = Char.ofNat 12

def tsChar (c : Char) : Bool := c.isDigit || c = '.'

/-- Greedy nonempty character-class capture. -/
def span1 (p : Char → Bool) (cs : List Char) : Option (List Char × List Char) :=
  match cs.takeWhile p with
  | [] => none
  | t => some (t, cs.dropWhile p)

/-- Expect a literal prefix. -/
def lit : List Char → List Char → Option (List Char)
  | [], cs => some cs
  | l :: ls, c :: cs => if c = l then lit ls cs else none
  | _ :: _, [] => none

structure LegacyGroups where
  version : List Char
  op : List Char
  status : List Char
  threadTs : List Char
  channelId : List Char
  answer : Option (List Char)
deriving DecidableEq, Repr

/-- A literal, then a whitespace-separated greedy capture: one
`\s+name=(class+)` unit of the grammar. -/
def wsField (name : List Char) (p : Char → Bool) (cs : List Char) :
    Option (List Char × List Char) :=
  match span1 wsChar cs with
  | none => none
  | some (_, cs1) =>
    match lit name cs1 with
    | none => none
    | some cs2 => span1 p cs2

/-- Match the legacy grammar starting exactly at the head of `cs`
(trailing input is ignored, as for an unanchored regex). -/
def legacyAt (cs : List Char) : Option LegacyGroups :=
  match lit "[logic_round v".data cs with
  | none => none
  | some cs1 =>
  match span1 Char.isDigit cs1 with
  | none => none
  | some (ver, cs2) =>
  match lit "]".data cs2 with
  | none => none
  | some cs3 =>
  match wsField "op=".data wordChar cs3 with
  | none => none
  | some (opg, cs4) =>
  match wsField "status=".data wordChar cs4 with
  | none => none
  | some (st, cs5) =>
  match wsField "threadTs=".data tsChar cs5 with
  | none => none
  | some (ts, cs6) =>
  match wsField "channelId=".data wordChar cs6 with
  | none => none
  | some (ch, cs7) =>
    let ans := (wsField "answer=".data (fun c => !(c = ']')) cs7).map (·.1)
    some { version := ver, op := opg, status := st, threadTs := ts, channelId := ch, answer := ans }

/-- `text.match(...)`: first position at which the pattern matches. -/
def legacyFind : List Char → Option LegacyGroups
  | [] => legacyAt []
  | c :: t =>
    match legacyAt (c :: t) with
    | some g => some g
    | none => legacyFind t

/-- Build the round object from the legacy captures; an unknown status
token fails the parse. -/
def legacyRound (g : LegacyGroups) : Option RoundState :=
  match statusOfText (String.mk g.status) with
  | none => none
  | some st =>
    some { version := String.mk g.version, op := String.mk g.op, status := st,
           threadTs := String.mk g.threadTs, channelId := String.mk g.channelId,
           question := none, answer := g.answer.map String.mk }

/-- `parseRoundState`: try the base64-encoded format first; return the
decoded JSON whenever it is truthy (no validation that it is a round
object); otherwise fall back to the legacy fixed-grammar format.  The
legacy branch builds a genuine round object, embedded here by
`RoundState.toJson` so both paths land in the runtime value type. -/
def parseRoundState (text : String) : Option Json :=
  match decodeRoundState text with
  | some decoded =>
    if jsTruthy decoded then some decoded
    else ((legacyFind text.data).bind legacyRound).map RoundState.toJson
  | none => ((legacyFind text.data).bind legacyRound).map RoundState.toJson


/-- The head of the input, if any, fails the character class `p` (so a
greedy class capture cannot extend into it). -/
def headFails (p : Char → Bool) : List Char → Prop
  | [] => True
  | c :: _ => p c = false

/-- A line of the legacy fixed grammar, built from its capture texts
(the optional trailing answer field included when present). -/
def mkLegacyLine (ver opg st ts ch : List Char) (ans : Option (List Char)) : String :=
  String.mk ("[logic_round v".data ++ (ver ++ (']' :: (' ' :: ("op=".data ++ (opg ++ (' ' :: ("status=".data ++ (st ++ (' ' :: ("threadTs=".data ++ (ts ++ (' ' :: ("channelId=".data ++ (ch ++ (match ans with | none => [] | some a => ' ' :: ("answer=".data ++ a)))))))))))))))))

/-! ### Scoreboard (`src/helpers/scoreboard.ts`)

`ScoreboardData` maps year → identity → integer; a missing
`scoresByYear`/`questionsByYear` on old records is modelled as the
empty map, which the code's `if (!data.x) data.x = {}` guards make
equivalent.  `lastUpdated` is stamped by `updateScoreboard` from the
wall clock, passed in as `now`. -/

structure ScoreboardData where
  scoresByYear : List (String × List (String × Int))
  questionsByYear : List (String × List (String × Int))
  lastUpdated : String
deriving DecidableEq, Repr

def yearScores (d : ScoreboardData) (y : String) : List (String × Int) :=
  (alGet d.scoresByYear y).getD []

def yearQuestions (d : ScoreboardData) (y : String) : List (String × Int) :=
  (alGet d.questionsByYear y).getD []

/-- `data.scoresByYear[year][userId] || 0`. -/
def getScore (d : ScoreboardData) (y u : String) : Int :=
  (alGet (yearScores d y) u).getD 0

/-- `data.questionsByYear[year][userId] || 0`. -/
def getQCount (d : ScoreboardData) (y u : String) : Int :=
  (alGet (yearQuestions d y) u).getD 0

/-- The mutator closure passed to `updateScoreboard` by `addPoints`:
throws when the new score would be negative (before any store). -/
def addPointsFn (userId : String) (points : Int) (year : Option String)
    (data : ScoreboardData) : Except String ScoreboardData :=
  match year with
  | none => .ok data
  | some y =>
    let ym := yearScores data y
    let newScore := (alGet ym userId).getD 0 + points
    if newScore < 0 then
      .error ("Cannot set score to negative value. Result would be " ++ toString newScore ++ ".")
    else
      .ok { data with scoresByYear := alSet data.scoresByYear y (alSet ym userId newScore) }

/-- The mutator closure of `addQuestion`. -/
def addQuestionFn (userId year : String) (data : ScoreboardData) : ScoreboardData :=
  let ym := yearQuestions data year
  let ym2 := alSet ym userId ((alGet ym userId).getD 0 + 1)
  { data with questionsByYear := alSet data.questionsByYear year ym2 }

/-- The mutator closure of `removeQuestion`: floor at zero, and delete
the entry rather than storing a zero count. -/
def removeQuestionFn (userId year : String) (data : ScoreboardData) : ScoreboardData :=
  let ym := yearQuestions data year
  let currentCount := (alGet ym userId).getD 0
  let newCount := max 0 (currentCount - 1)
  let ym2 := if newCount > 0 then alSet ym userId newCount else alDrop ym userId
  { data with questionsByYear := alSet data.questionsByYear year ym2 }

/-- `updateScoreboard`: read-modify-write.  A mutator that throws
aborts the whole update before either the display message or the data
message is written, so the stored data is exactly the old data; on
success both messages are rendered from the returned record with a
fresh `lastUpdated` stamp. -/
def updateScoreboard (now : String) (f : ScoreboardData → Except String ScoreboardData)
    (stored : ScoreboardData) : Except String ScoreboardData :=
  match f stored with
  | .error e => .error e
  | .ok d => .ok { d with lastUpdated := now }

def addPoints (now userId : String) (points : Int) (year : Option String)
    (stored : ScoreboardData) : Except String ScoreboardData :=
  updateScoreboard now (addPointsFn userId points year) stored

def addQuestion (now userId year : String) (stored : ScoreboardData) : ScoreboardData :=
  match updateScoreboard now (fun d => .ok (addQuestionFn userId year d)) stored with
  | .ok d => d
  | .error _ => stored

def removeQuestion (now userId year : String) (stored : ScoreboardData) : ScoreboardData :=
  match updateScoreboard now (fun d => .ok (removeQuestionFn userId year d)) stored with
  | .ok d => d
  | .error _ => stored

/-- One scoreboard mutation as issued by a handler, paired with the
wall-clock string of that call; a throwing `addPoints` leaves the
stored data unchanged. -/
inductive SbOp where
  | addPoints (userId : String) (delta : Int) (year : Option String)
  | addQuestion (userId year : String)
  | removeQuestion (userId year : String)
deriving DecidableEq, Repr

def runSbOp (stored : ScoreboardData) : SbOp × String → ScoreboardData
  | (.addPoints u p y, now) =>
    match addPoints now u p y stored with
    | .ok d => d
    | .error _ => stored
  | (.addQuestion u y, now) => addQuestion now u y stored
  | (.removeQuestion u y, now) => removeQuestion now u y stored

def runSbOps (stored : ScoreboardData) (ops : List (SbOp × String)) : ScoreboardData :=
  ops.foldl runSbOp stored

/-- All stored scores are nonnegative. -/
def NonnegScores (d : ScoreboardData) : Prop :=
  ∀ p ∈ d.scoresByYear, ∀ q ∈ p.2, (0 : Int) ≤ q.2

/-- All stored question counts are nonnegative. -/
def NonnegQuestions (d : ScoreboardData) : Prop :=
  ∀ p ∈ d.questionsByYear, ∀ q ∈ p.2, (0 : Int) ≤ q.2

instance (d : ScoreboardData) : Decidable (NonnegScores d) := by
  unfold NonnegScores; infer_instance

instance (d : ScoreboardData) : Decidable (NonnegQuestions d) := by
  unfold NonnegQuestions; infer_instance

/-! ### Year derivation (`getYearFromTimestamp`)

`new Date(parseFloat(ts) * 1000).getFullYear()` on a Slack
`"seconds.fraction"` timestamp, with the Lambda clock in UTC.  The
fractional part cannot move the date across a year boundary, so the
year is that of the integer seconds; `civilYear` is the standard
civil-from-days computation. -/

def civilYear (days : Nat) : Nat :=
  let z := days + 719468
  let era := z / 146097
  let doe := z % 146097
  let yoe := (doe - doe / 1460 + doe / 36524 - doe / 146096) / 365
  let y := yoe + era * 400
  let doy := doe - (365 * yoe + yoe / 4 - yoe / 100)
  let mp := (5 * doy + 2) / 153
  let m := if mp < 10 then mp + 3 else mp - 9
  if m ≤ 2 then y + 1 else y

def parseLeadingNat (cs : List Char) : Nat := digitsNat (cs.takeWhile Char.isDigit)

def getYearFromTimestamp (ts : String) : String :=
  toString (civilYear (parseLeadingNat ts.data / 86400))

/-! ### Handler world model (`part_008`, first handler set)

`World` holds the mutable Slack-side state a handler step can touch:
the round control message content of the thread under consideration
and the channel's stored scoreboard data.  Slack API calls are
modelled as succeeding; a `findRoundControlMessage` failure surfaces
as `round = none`. -/

structure SolvePromptPayload where
  channelId : String
  threadTs : String
  guessAuthorId : String
  roundControlTs : String
  questionText : String
  answerText : String
  dmChannelId : String
  dmMessageTs : String
deriving DecidableEq, Repr

structure PrivateAnswerPayload where
  channelId : String
  threadTs : String
  submitterId : String
  roundControlTs : String
  questionText : String
  answerText : String
  dmChannelId : String
  dmMessageTs : String
deriving DecidableEq, Repr

structure World where
  round : Option RoundState
  scoreboard : ScoreboardData
deriving DecidableEq, Repr

/-- The in-place update applied to the confirmation DM. -/
inductive DmUpdate where
  | confirmed (text : String)
  | cancelled (text : String)
deriving DecidableEq, Repr

/-- The `confirm_solve` button handler: re-check the round status
(anti-double-confirm guard); if already settled, only the DM changes;
otherwise write the SOLVED state, then award the point for the year of
the thread timestamp. -/
def confirm_solve (data : SolvePromptPayload) (now : String) (w : World) : World × DmUpdate :=
  match w.round with
  | none => (w, .cancelled "This round was already solved (no changes made).")
  | some st =>
    if st.status = .SOLVED ∨ st.status = .CLOSED then
      let statusT := if st.status = .CLOSED then "closed" else "solved"
      (w, .cancelled ("This round was already " ++ statusT ++ " (no changes made)."))
    else
      let updatedState : RoundState := { st with status := .SOLVED, answer := some data.answerText }
      let w1 : World := { w with round := some updatedState }
      match addPoints now data.guessAuthorId 1 (some (getYearFromTimestamp data.threadTs)) w1.scoreboard with
      | .error _ => (w1, .cancelled "Error solving round. Please try again.")
      | .ok sb =>
        ({ w1 with scoreboard := sb },
         .confirmed ("Confirmed - round solved and 1 point awarded to <@" ++ data.guessAuthorId ++ ">."))

/-- The `confirm_private_solve` button handler (same guard and
transition, credited to the submitter). -/
def confirm_private_solve (data : PrivateAnswerPayload) (now : String) (w : World) : World × DmUpdate :=
  match w.round with
  | none => (w, .cancelled "This round was already solved (no changes made).")
  | some st =>
    if st.status = .SOLVED ∨ st.status = .CLOSED then
      let statusT := if st.status = .CLOSED then "closed" else "solved"
      (w, .cancelled ("This round was already " ++ statusT ++ " (no changes made)."))
    else
      let updatedState : RoundState := { st with status := .SOLVED, answer := some data.answerText }
      let w1 : World := { w with round := some updatedState }
      match addPoints now data.submitterId 1 (some (getYearFromTimestamp data.threadTs)) w1.scoreboard with
      | .error _ => (w1, .cancelled "Error solving round. Please try again.")
      | .ok sb =>
        ({ w1 with scoreboard := sb },
         .confirmed ("Confirmed - round solved and 1 point awarded to <@" ++ data.submitterId ++ ">."))

inductive OpAction where
  | edit
  | close
deriving DecidableEq, Repr

/-- `validateOpAndRound`: identity check, round lookup, then the
already-closed / already-solved rejections; the error carries the
internal code and the ephemeral message text. -/
def validateOpAndRound (userId expectedOp : String) (round : Option RoundState)
    (action : OpAction) : Except (String × String) RoundState :=
  if userId ≠ expectedOp then
    .error ("NOT_OP",
      if action = .edit then "Only the OP can edit the question." else "Only the OP can close this round.")
  else
    match round with
    | none => .error ("NOT_FOUND", "Round not found.")
    | some st =>
      if st.status = .CLOSED then
        .error ("ALREADY_CLOSED",
          if action = .edit then "Cannot edit a closed round." else "This round is already closed.")
      else if st.status = .SOLVED then
        .error ("ALREADY_SOLVED",
          if action = .edit then "Cannot edit a solved round." else "Cannot close a solved round.")
      else .ok st

/-- The `close_round` button handler.  On success the OP's question
count for the round's year is reversed (the round is necessarily OPEN
there) and the round becomes CLOSED; the second component is the
ephemeral message shown to the pressing user. -/
def close_round (userId expectedOp threadTs now : String) (w : World) : World × Option String :=
  match validateOpAndRound userId expectedOp w.round .close with
  | .error (_, msg) => (w, some msg)
  | .ok st =>
    let w1 : World :=
      if st.status = .OPEN then
        { w with scoreboard := removeQuestion now st.op (getYearFromTimestamp threadTs) w.scoreboard }
      else w
    ({ w1 with round := some { st with status := .CLOSED } }, some "Round closed.")

/-- The `edit_question_modal` submit handler: OP check, nonempty
check, round lookup, settled-round rejection, then the question text
is rewritten in place (status untouched). -/
def edit_question_modal (userId op newQuestionRaw : String) (w : World) : World × Option String :=
  if userId ≠ op then (w, some "Only the OP can edit the question.")
  else
    let newQuestion := newQuestionRaw.trim
    if newQuestion = "" then (w, some "Question cannot be empty.")
    else
      match w.round with
      | none => (w, some "Round not found.")
      | some st =>
        if st.status = .CLOSED ∨ st.status = .SOLVED then
          (w, some ("Cannot edit a " ++ (if st.status = .CLOSED then "closed" else "solved") ++ " round."))
        else
          ({ w with round := some { st with question := some newQuestion } }, none)

structure ReactionCtx where
  allowedChannels : List String
  testChannelId : Option String
  botUserId : String
deriving DecidableEq, Repr

structure ReactionEvent where
  channel : String
  reaction : String
  hasItemTs : Bool
  user : String
  itemUser : String
deriving DecidableEq, Repr

/-- The `reaction_added` guard chain, in source order; the result is
whether the DM confirmation flow is sent to the OP.  The Slack lookups
(message found in history, message in a thread, reacted message found
among the replies, its author field present) are passed as facts about
the thread.  Every failing guard is a silent no-op. -/
def reaction_added (ctx : ReactionCtx) (ev : ReactionEvent)
    (messageFound inThread reactedMsgFound reactedMsgUserPresent : Bool)
    (round : Option RoundState) : Bool :=
  if ¬ ctx.allowedChannels.contains ev.channel then false
  else if ev.reaction ≠ "yes" then false
  else if ¬ ev.hasItemTs then false
  else if ¬ messageFound then false
  else if ¬ inThread then false
  else if ¬ reactedMsgFound then false
  else
    match round with
    | none => false
    | some st =>
      if st.status = .SOLVED ∨ st.status = .CLOSED then false
      else if ev.user ≠ st.op then false
      else if ¬ reactedMsgUserPresent then false
      else if ev.itemUser = ctx.botUserId then false
      else if ev.itemUser = st.op then
        if ctx.testChannelId = some ev.channel then true else false
      else true

/-- One round-mutating handler step (the four handlers that write the
round control message). -/
inductive HandlerStep where
  | confirmSolve (data : SolvePromptPayload) (now : String)
  | confirmPrivateSolve (data : PrivateAnswerPayload) (now : String)
  | closeRound (userId expectedOp threadTs now : String)
  | editQuestion (userId op newQuestion : String)
deriving Repr

def runStep (s : HandlerStep) (w : World) : World :=
  match s with
  | .confirmSolve d now => (confirm_solve d now w).1
  | .confirmPrivateSolve d now => (confirm_private_solve d now w).1
  | .closeRound u e t now => (close_round u e t now w).1
  | .editQuestion u o q => (edit_question_modal u o q w).1

/-- `n` sequential presses of the same confirm button. -/
def confirmTimes (data : SolvePromptPayload) (now : String) : Nat → World → World
  | 0, w => w
  | n + 1, w => confirmTimes data now n (confirm_solve data now w).1

/-! ## Theorems

### Association-list lemmas -/

theorem alGet_alSet {α : Type} (l : List (String × α)) (k k' : String) (v : α) :
    alGet (alSet l k v) k' = if k = k' then some v else alGet l k' := by
  induction l with
  | nil => by_cases h : k = k' <;> simp [alSet, alGet, h]
  | cons p t ih =>
    obtain ⟨k0, v0⟩ := p
    by_cases h : k = k'
    · subst h
      by_cases h0 : k0 = k <;> simp [alSet, alGet, h0, ih]
    · by_cases h0 : k0 = k
      · subst h0
        simp [alSet, alGet, h]
      · by_cases h1 : k0 = k'
        · subst h1
          simp [alSet, alGet, h0, h]
        · simp [alSet, alGet, h0, h, h1, ih]

theorem alGet_alDrop {α : Type} (l : List (String × α)) (k k' : String) :
    alGet (alDrop l k) k' = if k = k' then none else alGet l k' := by
  induction l with
  | nil => by_cases h : k = k' <;> simp [alDrop, alGet, h]
  | cons p t ih =>
    obtain ⟨k0, v0⟩ := p
    by_cases h : k = k'
    · subst h
      by_cases h0 : k0 = k <;> simp [alDrop, alGet, h0, ih]
    · by_cases h0 : k0 = k
      · subst h0
        simp [alDrop, alGet, h, ih]
      · by_cases h1 : k0 = k'
        · subst h1
          simp [alDrop, alGet, h0, h, ih]
        · simp [alDrop, alGet, h0, h, h1, ih]

theorem mem_alSet {α : Type} {l : List (String × α)} {k : String} {v : α} {q : String × α}
    (hq : q ∈ alSet l k v) : q = (k, v) ∨ q ∈ l := by
  induction l with
  | nil =>
    simp [alSet] at hq
    exact Or.inl hq
  | cons p t ih =>
    obtain ⟨k0, v0⟩ := p
    by_cases h0 : k0 = k
    · subst h0
      simp only [alSet, eq_self_iff_true, if_true, List.mem_cons] at hq
      rcases hq with hh | hh
      · exact Or.inl hh
      · exact Or.inr (List.mem_cons_of_mem _ hh)
    · simp only [alSet, if_neg h0, List.mem_cons] at hq
      rcases hq with hh | hh
      · exact Or.inr (by simp [hh])
      · rcases ih hh with hh' | hh'
        · exact Or.inl hh'
        · exact Or.inr (List.mem_cons_of_mem _ hh')

theorem alGet_mem {α : Type} {l : List (String × α)} {k : String} {v : α}
    (h : alGet l k = some v) : (k, v) ∈ l := by
  induction l with
  | nil => simp [alGet] at h
  | cons p t ih =>
    obtain ⟨k0, v0⟩ := p
    by_cases h0 : k0 = k
    · subst h0
      simp only [alGet, eq_self_iff_true, if_true, Option.some.injEq] at h
      simp [h]
    · simp only [alGet, if_neg h0] at h
      exact List.mem_cons_of_mem _ (ih h)

theorem alSet_alSet {α : Type} (l : List (String × α)) (k : String) (v w : α) :
    alSet (alSet l k v) k w = alSet l k w := by
  induction l with
  | nil => simp [alSet]
  | cons p t ih =>
    obtain ⟨k0, v0⟩ := p
    by_cases h0 : k0 = k <;> simp [alSet, h0, ih]

theorem alSet_self {α : Type} {l : List (String × α)} {k : String} {v : α}
    (h : alGet l k = some v) : alSet l k v = l := by
  induction l with
  | nil => simp [alGet] at h
  | cons p t ih =>
    obtain ⟨k0, v0⟩ := p
    by_cases h0 : k0 = k
    · subst h0
      simp only [alGet, eq_self_iff_true, if_true, Option.some.injEq] at h
      simp [alSet, h]
    · simp only [alGet, if_neg h0] at h
      simp [alSet, h0, ih h]

theorem alDrop_alSet {α : Type} (l : List (String × α)) (k : String) (v : α) :
    alDrop (alSet l k v) k = alDrop l k := by
  induction l with
  | nil => simp [alSet, alDrop]
  | cons p t ih =>
    obtain ⟨k0, v0⟩ := p
    by_cases h0 : k0 = k <;> simp [alSet, alDrop, h0, ih]

theorem alDrop_of_none {α : Type} {l : List (String × α)} {k : String}
    (h : alGet l k = none) : alDrop l k = l := by
  induction l with
  | nil => simp [alDrop]
  | cons p t ih =>
    obtain ⟨k0, v0⟩ := p
    by_cases h0 : k0 = k
    · subst h0; simp [alGet] at h
    · simp only [alGet, if_neg h0] at h
      simp [alDrop, h0, ih h]

/-! ### Transport layer: UTF-8 and base64 round trips -/

theorem char_toNat_lt (c : Char) : c.toNat < 1114112 := by
  have h := c.valid
  simp only [UInt32.isValidChar, Nat.isValidChar] at h
  simp only [Char.toNat]
  rcases h with h | ⟨h1, h2⟩ <;> omega

theorem utf8Bytes_lt256 (n : Nat) (hn : n < 1114112) : ∀ b ∈ utf8Bytes n, b < 256 := by
  intro b hb
  by_cases h1 : n < 0x80
  · simp [utf8Bytes, h1] at hb
    omega
  · by_cases h2 : n < 0x800
    · simp [utf8Bytes, h1, h2] at hb
      rcases hb with rfl | rfl <;> omega
    · by_cases h3 : n < 0x10000
      · simp [utf8Bytes, h1, h2, h3] at hb
        rcases hb with rfl | rfl | rfl <;> omega
      · simp [utf8Bytes, h1, h2, h3] at hb
        rcases hb with rfl | rfl | rfl | rfl <;> omega

theorem utf8Encode_lt256 (s : String) : ∀ b ∈ utf8Encode s, b < 256 := by
  intro b hb
  simp only [utf8Encode, List.mem_flatten, List.mem_map] at hb
  obtain ⟨bs, ⟨c, _, rfl⟩, hmem⟩ := hb
  exact utf8Bytes_lt256 c.toNat (char_toNat_lt c) b hmem

set_option maxHeartbeats 2000000 in
theorem utf8Decode_bytes (n : Nat) (hn : n < 1114112) (rest : List Nat) :
    utf8Decode (utf8Bytes n ++ rest) = Char.ofNat n :: utf8Decode rest := by
  by_cases h1 : n < 0x80
  · simp only [utf8Bytes, if_pos h1, List.cons_append, List.nil_append]
    rw [utf8Decode.eq_def]
    simp only []
    rw [if_pos h1]
  · by_cases h2 : n < 0x800
    · simp only [utf8Bytes, if_neg h1, if_pos h2, List.cons_append, List.nil_append]
      have hb1 : ¬ (0xC0 + n / 0x40 < 0x80) := by omega
      have hb2 : ¬ (0xC0 + n / 0x40 < 0xC0) := by omega
      have hb3 : 0xC0 + n / 0x40 < 0xE0 := by omega
      have hc : isCont (0x80 + n % 0x40) = true := by
        simp [isCont]
        omega
      rw [utf8Decode.eq_def]
      simp only []
      rw [if_neg hb1, if_neg hb2, if_pos hb3]
      simp only [utf8Cont1]
      rw [if_pos hc]
      have harg : (0xC0 + n / 0x40 - 0xC0) * 0x40 + (0x80 + n % 0x40 - 0x80) = n := by omega
      rw [harg]
    · by_cases h3 : n < 0x10000
      · simp only [utf8Bytes, if_neg h1, if_neg h2, if_pos h3, List.cons_append,
          List.nil_append]
        have hb1 : ¬ (0xE0 + n / 0x1000 < 0x80) := by omega
        have hb2 : ¬ (0xE0 + n / 0x1000 < 0xC0) := by omega
        have hb3 : ¬ (0xE0 + n / 0x1000 < 0xE0) := by omega
        have hb4 : 0xE0 + n / 0x1000 < 0xF0 := by omega
        have hc1 : isCont (0x80 + n / 0x40 % 0x40) = true := by
          simp [isCont]
          omega
        have hc2 : isCont (0x80 + n % 0x40) = true := by
          simp [isCont]
          omega
        rw [utf8Decode.eq_def]
        simp only []
        rw [if_neg hb1, if_neg hb2, if_neg hb3, if_pos hb4]
        simp only [utf8Cont2]
        have hcc : (isCont (0x80 + n / 0x40 % 0x40) && isCont (0x80 + n % 0x40)) = true := by
          rw [hc1, hc2]
          rfl
        rw [if_pos hcc]
        have harg : (0xE0 + n / 0x1000 - 0xE0) * 0x1000 +
            (0x80 + n / 0x40 % 0x40 - 0x80) * 0x40 + (0x80 + n % 0x40 - 0x80) = n := by omega
        rw [harg]
      · simp only [utf8Bytes, if_neg h1, if_neg h2, if_neg h3, List.cons_append,
          List.nil_append]
        have hb1 : ¬ (0xF0 + n / 0x40000 < 0x80) := by omega
        have hb2 : ¬ (0xF0 + n / 0x40000 < 0xC0) := by omega
        have hb3 : ¬ (0xF0 + n / 0x40000 < 0xE0) := by omega
        have hb4 : ¬ (0xF0 + n / 0x40000 < 0xF0) := by omega
        have hb5 : 0xF0 + n / 0x40000 < 0xF8 := by omega
        have hc1 : isCont (0x80 + n / 0x1000 % 0x40) = true := by
          simp [isCont]
          omega
        have hc2 : isCont (0x80 + n / 0x40 % 0x40) = true := by
          simp [isCont]
          omega
        have hc3 : isCont (0x80 + n % 0x40) = true := by
          simp [isCont]
          omega
        rw [utf8Decode.eq_def]
        simp only []
        rw [if_neg hb1, if_neg hb2, if_neg hb3, if_neg hb4, if_pos hb5]
        simp only [utf8Cont3]
        have hcc : (isCont (0x80 + n / 0x1000 % 0x40) && isCont (0x80 + n / 0x40 % 0x40) &&
            isCont (0x80 + n % 0x40)) = true := by
          rw [hc1, hc2, hc3]
          rfl
        rw [if_pos hcc]
        have harg : (0xF0 + n / 0x40000 - 0xF0) * 0x40000 +
            (0x80 + n / 0x1000 % 0x40 - 0x80) * 0x1000 +
            (0x80 + n / 0x40 % 0x40 - 0x80) * 0x40 + (0x80 + n % 0x40 - 0x80) = n := by omega
        rw [harg]

theorem utf8Decode_encode_list (cs : List Char) :
    utf8Decode ((cs.map (fun c => utf8Bytes c.toNat)).flatten) = cs := by
  induction cs with
  | nil => simp [utf8Decode]
  | cons c t ih =>
    simp only [List.map_cons, List.flatten_cons]
    rw [utf8Decode_bytes c.toNat (char_toNat_lt c), ih, Char.ofNat_toNat]

theorem utf8String_encode (s : String) : utf8String (utf8Encode s) = s := by
  simp only [utf8String, utf8Encode, utf8Decode_encode_list]

theorem b64val_chr : ∀ v : Nat, v < 64 → b64val (b64chr v) = some v := by decide

theorem b64chr_ne_pad : ∀ v : Nat, v < 64 → ¬ (b64chr v = '=') := by decide

theorem b64scan_chr (v : Nat) (hv : v < 64) (l : List Char) :
    b64scan (b64chr v :: l) = v :: b64scan l := by
  simp [b64scan, b64chr_ne_pad v hv, b64val_chr v hv]

theorem b64scan_pad (l : List Char) : b64scan ('=' :: l) = [] := by
  simp [b64scan]

theorem b64_roundtrip : ∀ (bs : List Nat), (∀ b ∈ bs, b < 256) →
    b64bytes (b64scan (b64chunks bs)) = bs
  | [], _ => rfl
  | [b0], h => by
    have hb0 : b0 < 256 := h b0 (by simp)
    simp only [b64chunks]
    rw [b64scan_chr (b0 / 4) (by omega), b64scan_chr (b0 % 4 * 16) (by omega), b64scan_pad]
    simp only [b64bytes]
    congr 1
    omega
  | [b0, b1], h => by
    have hb0 : b0 < 256 := h b0 (by simp)
    have hb1 : b1 < 256 := h b1 (by simp)
    simp only [b64chunks]
    rw [b64scan_chr (b0 / 4) (by omega), b64scan_chr (b0 % 4 * 16 + b1 / 16) (by omega),
      b64scan_chr (b1 % 16 * 4) (by omega), b64scan_pad]
    simp only [b64bytes]
    congr 1
    · omega
    · congr 1
      omega
  | b0 :: b1 :: b2 :: rest, h => by
    have hb0 : b0 < 256 := h b0 (by simp)
    have hb1 : b1 < 256 := h b1 (by simp)
    have hb2 : b2 < 256 := h b2 (by simp)
    have hrest : ∀ b ∈ rest, b < 256 := fun b hb => h b (by simp [hb])
    simp only [b64chunks]
    rw [b64scan_chr (b0 / 4) (by omega), b64scan_chr (b0 % 4 * 16 + b1 / 16) (by omega),
      b64scan_chr (b1 % 16 * 4 + b2 / 64) (by omega), b64scan_chr (b2 % 64) (by omega)]
    simp only [b64bytes]
    rw [b64_roundtrip rest hrest]
    congr 1
    · omega
    · congr 1
      · omega
      · congr 1
        omega

/-- The full Node transport round trip:
`Buffer.from(s, 'base64').toString('utf-8')` inverts
`Buffer.from(s).toString('base64')`. -/
theorem transport_roundtrip (s : String) :
    utf8String (b64decode (b64encode (utf8Encode s))) = s := by
  unfold b64encode b64decode
  rw [show (String.mk (b64chunks (utf8Encode s))).data = b64chunks (utf8Encode s) from rfl]
  rw [b64_roundtrip _ (utf8Encode_lt256 s)]
  exact utf8String_encode s

/-! ### JSON codec round trip: lexical lemmas -/

theorem dropWs_cons (c : Char) (l : List Char) (h : jsonWs c = false) :
    dropWs (c :: l) = c :: l := by
  simp [dropWs, List.dropWhile_cons, h]

theorem digitChar_spec : ∀ m : Nat, m < 10 →
    (Char.ofNat (48 + m)).isDigit = true ∧ (Char.ofNat (48 + m)).toNat - 48 = m := by decide

theorem isDigit_facts (c : Char) (hd : c.isDigit = true) :
    jsonWs c = false ∧ c ≠ 'n' ∧ c ≠ 't' ∧ c ≠ 'f' ∧ c ≠ '"' ∧ c ≠ '-' ∧
      c ≠ '[' ∧ c ≠ '\x7b' ∧ c ≠ ']' ∧ c ≠ '\x7d' ∧ c ≠ ',' ∧ c ≠ ':' := by
  refine ⟨?_, ?_, ?_, ?_, ?_, ?_, ?_, ?_, ?_, ?_, ?_, ?_⟩
  · by_cases hw : jsonWs c = true
    · exfalso
      simp only [jsonWs, Bool.or_eq_true, decide_eq_true_eq] at hw
      rcases hw with ((h | h) | h) | h <;> subst h <;> simp at hd
    · simpa using hw
  all_goals intro heq
  all_goals rw [heq] at hd
  all_goals simp at hd

theorem natChars_digits (n : Nat) : ∀ c ∈ natChars n, c.isDigit = true := by
  induction n using Nat.strong_induction_on with
  | _ n ih =>
    intro c hc
    rw [natChars.eq_def] at hc
    by_cases h : n < 10
    · rw [if_pos h] at hc
      simp only [List.mem_singleton] at hc
      subst hc
      exact (digitChar_spec n h).1
    · rw [if_neg h] at hc
      rw [List.mem_append] at hc
      rcases hc with hc | hc
      · exact ih (n / 10) (by omega) c hc
      · simp only [List.mem_singleton] at hc
        subst hc
        exact (digitChar_spec (n % 10) (by omega)).1

theorem natChars_ne_nil (n : Nat) : natChars n ≠ [] := by
  rw [natChars.eq_def]
  by_cases h : n < 10 <;> simp [h]

theorem digitSpan_stop (rest : List Char) (h : notDigitHead rest) :
    digitSpan rest = ([], rest) := by
  cases rest with
  | nil => rfl
  | cons c t =>
    simp only [notDigitHead] at h
    simp [digitSpan, h]

theorem digitSpan_run (ds : List Char) (hds : ∀ c ∈ ds, c.isDigit = true)
    (rest : List Char) (hrest : notDigitHead rest) :
    digitSpan (ds ++ rest) = (ds, rest) := by
  induction ds with
  | nil => simpa using digitSpan_stop rest hrest
  | cons c t ih =>
    have hc : c.isDigit = true := hds c (by simp)
    have ht := ih (fun x hx => hds x (by simp [hx]))
    simp [digitSpan, hc, ht]

theorem digitsNat_natChars (n : Nat) : digitsNat (natChars n) = n := by
  induction n using Nat.strong_induction_on with
  | _ n ih =>
    rw [natChars.eq_def]
    by_cases h : n < 10
    · rw [if_pos h]
      simp [digitsNat, (digitChar_spec n h).2]
    · rw [if_neg h]
      simp only [digitsNat, List.foldl_append]
      have hfold := ih (n / 10) (by omega)
      simp only [digitsNat] at hfold
      rw [hfold]
      simp [(digitChar_spec (n % 10) (by omega)).2]
      omega

theorem hexNum_hexChar : ∀ m : Nat, m < 16 → hexNum (hexChar m) = some m := by decide

theorem jStrBody_escape (c : Char) (rest : List Char) :
    jStrBody (escapeChar c ++ rest) =
      Option.map (fun p => (c :: p.1, p.2)) (jStrBody rest) := by
  by_cases h1 : c = '"'
  · subst h1
    rw [show escapeChar '"' = ['\\', '"'] from rfl]
    simp only [List.cons_append, List.nil_append]
    rw [jStrBody.eq_def]
    cases h : jStrBody rest <;> simp [escCode, h]
  · by_cases h2 : c = '\\'
    · subst h2
      rw [show escapeChar '\\' = ['\\', '\\'] from rfl]
      simp only [List.cons_append, List.nil_append]
      rw [jStrBody.eq_def]
      cases h : jStrBody rest <;> simp [escCode, h]
    · by_cases h3 : c = Char.ofNat 8
      · subst h3
        rw [show escapeChar (Char.ofNat 8) = ['\\', 'b'] from rfl]
        simp only [List.cons_append, List.nil_append]
        rw [jStrBody.eq_def]
        cases h : jStrBody rest <;> simp [escCode, h]
      · by_cases h4 : c = '\t'
        · subst h4
          rw [show escapeChar '\t' = ['\\', 't'] from rfl]
          simp only [List.cons_append, List.nil_append]
          rw [jStrBody.eq_def]
          cases h : jStrBody rest <;> simp [escCode, h]
        · by_cases h5 : c = '\n'
          · subst h5
            rw [show escapeChar '\n' = ['\\', 'n'] from rfl]
            simp only [List.cons_append, List.nil_append]
            rw [jStrBody.eq_def]
            cases h : jStrBody rest <;> simp [escCode, h]
          · by_cases h6 : c = Char.ofNat 12
            · subst h6
              rw [show escapeChar (Char.ofNat 12) = ['\\', 'f'] from rfl]
              simp only [List.cons_append, List.nil_append]
              rw [jStrBody.eq_def]
              cases h : jStrBody rest <;> simp [escCode, h]
            · by_cases h7 : c = '\r'
              · subst h7
                rw [show escapeChar '\r' = ['\\', 'r'] from rfl]
                simp only [List.cons_append, List.nil_append]
                rw [jStrBody.eq_def]
                cases h : jStrBody rest <;> simp [escCode, h]
              · by_cases h8 : c.toNat < 32
                · simp only [escapeChar, if_neg h1, if_neg h2, if_neg h3, if_neg h4,
                    if_neg h5, if_neg h6, if_neg h7, if_pos h8, List.cons_append,
                    List.nil_append]
                  have hhi := hexNum_hexChar (c.toNat / 16) (by omega)
                  have hlo := hexNum_hexChar (c.toNat % 16) (by omega)
                  have harg : c.toNat / 16 * 16 + c.toNat % 16 = c.toNat := by omega
                  have h0 : hexNum '0' = some 0 := rfl
                  rw [jStrBody.eq_def]
                  cases h : jStrBody rest <;>
                    simp [h0, hhi, hlo, harg, Char.ofNat_toNat, h]
                · simp only [escapeChar, if_neg h1, if_neg h2, if_neg h3, if_neg h4,
                    if_neg h5, if_neg h6, if_neg h7, if_neg h8, List.cons_append,
                    List.nil_append]
                  rw [jStrBody.eq_def]
                  cases h : jStrBody rest <;> simp [h1, h2, h8, h]

theorem jStrBody_quote (cs : List Char) (rest : List Char) :
    jStrBody ((cs.map escapeChar).flatten ++ '"' :: rest) = some (cs, rest) := by
  induction cs with
  | nil =>
    simp only [List.map_nil, List.flatten_nil, List.nil_append]
    rw [jStrBody.eq_def]
    simp
  | cons c t ih =>
    simp only [List.map_cons, List.flatten_cons, List.append_assoc]
    rw [jStrBody_escape, ih]
    rfl

theorem jCharsItems_eq (x : Json) (xs : List Json) :
    jCharsItems (x :: xs) = jChars x ++ itemsSep xs := by
  induction xs generalizing x with
  | nil => simp [jCharsItems, itemsSep]
  | cons y ys ih => simp [jCharsItems, itemsSep, ih y]

theorem jCharsFields_eq (k : String) (v : Json) (fs : List (String × Json)) :
    jCharsFields ((k, v) :: fs) =
      quoteChars k ++ ':' :: (jChars v ++ fieldsSep fs) := by
  induction fs generalizing k v with
  | nil => simp [jCharsFields, fieldsSep]
  | cons f ft ih =>
    obtain ⟨k2, v2⟩ := f
    simp [jCharsFields, fieldsSep, ih k2 v2]

theorem intChars_shape (i : Int) :
    (i < 0 ∧ intChars i = '-' :: natChars i.natAbs) ∨
      (0 ≤ i ∧ intChars i = natChars i.natAbs) := by
  by_cases h : i < 0
  · exact Or.inl ⟨h, by simp [intChars, h]⟩
  · exact Or.inr ⟨by omega, by simp [intChars, h]⟩

/-- Every rendered value begins with a character that is not JSON
whitespace and closes neither an array nor an object. -/
theorem jChars_head (j : Json) :
    ∃ c t, jChars j = c :: t ∧ jsonWs c = false ∧ c ≠ ']' ∧ c ≠ '\x7d' := by
  cases j with
  | jnull => exact ⟨'n', _, rfl, by decide, by decide, by decide⟩
  | jbool b =>
    cases b
    · refine ⟨'f', _, rfl, ?_, ?_, ?_⟩ <;> decide
    · refine ⟨'t', _, rfl, ?_, ?_, ?_⟩ <;> decide
  | jstr s => exact ⟨'"', _, rfl, by decide, by decide, by decide⟩
  | jarr items => exact ⟨'[', _, rfl, by decide, by decide, by decide⟩
  | jobj fields => exact ⟨'\x7b', _, rfl, by decide, by decide, by decide⟩
  | jnum n =>
    rcases intChars_shape n with ⟨hn, hsh⟩ | ⟨hn, hsh⟩
    · exact ⟨'-', _, by rw [jChars, hsh], by decide, by decide, by decide⟩
    · obtain ⟨c, t, hct⟩ : ∃ c t, natChars n.natAbs = c :: t := by
        cases h : natChars n.natAbs with
        | nil => exact absurd h (natChars_ne_nil _)
        | cons c t => exact ⟨c, t, rfl⟩
      have hc : c.isDigit = true := natChars_digits n.natAbs c (by simp [hct])
      obtain ⟨hws, -, -, -, -, -, -, -, hbr, hbc, -, -⟩ := isDigit_facts c hc
      exact ⟨c, t, by rw [jChars, hsh, hct], hws, hbr, hbc⟩

theorem stringMk_data (s : String) : String.mk s.data = s := rfl

theorem numGuard_of_head (j : Json) (r : List Char) (h : notDigitHead r) : numGuard j r := by
  cases j <;> first | exact h | trivial

theorem notDigitHead_itemsSep (xs : List Json) (rest : List Char) :
    notDigitHead (itemsSep xs ++ ']' :: rest) := by
  cases xs <;> simp [itemsSep, notDigitHead]

theorem notDigitHead_fieldsSep (fs : List (String × Json)) (rest : List Char) :
    notDigitHead (fieldsSep fs ++ '\x7d' :: rest) := by
  cases fs with
  | nil => simp [fieldsSep, notDigitHead]
  | cons f ft =>
    obtain ⟨k, v⟩ := f
    simp [fieldsSep, notDigitHead]

/-- Parsing a rendered integer literal. -/
theorem jParse_num (n : Int) (f : Nat) (rest : List Char) (hg : notDigitHead rest) :
    jParse (f + 1) (intChars n ++ rest) = some (.jnum n, rest) := by
  rcases intChars_shape n with ⟨hn, hsh⟩ | ⟨hn, hsh⟩
  · obtain ⟨c, t, hct⟩ : ∃ c t, natChars n.natAbs = c :: t := by
      cases h : natChars n.natAbs with
      | nil => exact absurd h (natChars_ne_nil _)
      | cons c t => exact ⟨c, t, rfl⟩
    have hspan : digitSpan (natChars n.natAbs ++ rest) = (natChars n.natAbs, rest) :=
      digitSpan_run _ (natChars_digits _) rest hg
    rw [hsh]
    simp only [List.cons_append]
    rw [jParse]
    rw [dropWs_cons _ _ (by decide)]
    simp only []
    simp only [if_true]
    rw [hspan, hct]
    rw [if_neg (by decide), if_neg (by decide), if_neg (by decide), if_neg (by decide)]
    simp only []
    rw [show digitsNat (c :: t) = n.natAbs from by rw [← hct, digitsNat_natChars]]
    simp only [Option.some.injEq, Prod.mk.injEq, Json.jnum.injEq, and_true]
    omega
  · obtain ⟨c, t, hct⟩ : ∃ c t, natChars n.natAbs = c :: t := by
      cases h : natChars n.natAbs with
      | nil => exact absurd h (natChars_ne_nil _)
      | cons c t => exact ⟨c, t, rfl⟩
    have hc : c.isDigit = true := natChars_digits n.natAbs c (by simp [hct])
    obtain ⟨hws, hn', ht', hf', hq', hm', -, -, -, -, -, -⟩ := isDigit_facts c hc
    have hspan : digitSpan (natChars n.natAbs ++ rest) = (natChars n.natAbs, rest) :=
      digitSpan_run _ (natChars_digits _) rest hg
    rw [hsh, hct]
    simp only [List.cons_append]
    rw [jParse]
    rw [dropWs_cons _ _ hws]
    simp only []
    rw [hct] at hspan
    simp only [List.cons_append] at hspan
    rw [if_neg hn', if_neg ht', if_neg hf', if_neg hq', if_neg hm', if_pos hc, hspan]
    simp only []
    rw [show digitsNat (c :: t) = n.natAbs from by rw [← hct, digitsNat_natChars]]
    simp only [Option.some.injEq, Prod.mk.injEq, Json.jnum.injEq, and_true]
    omega


/-! ### JSON round trip and legacy-grammar lemmas -/

theorem jChars_arr_len (x : Json) (xs : List Json) :
    (jChars (Json.jarr (x :: xs))).length =
      (jChars x).length + (itemsSep xs).length + 2 := by
  rw [show jChars (Json.jarr (x :: xs)) = '[' :: (jCharsItems (x :: xs) ++ [']']) from rfl]
  rw [jCharsItems_eq]
  simp only [List.length_cons, List.length_append, List.length_nil]
  try omega

theorem jChars_obj_len (k : String) (v : Json) (fs : List (String × Json)) :
    (jChars (Json.jobj ((k, v) :: fs))).length =
      (quoteChars k).length + (jChars v).length + (fieldsSep fs).length + 3 := by
  rw [show jChars (Json.jobj ((k, v) :: fs)) = '\x7b' :: (jCharsFields ((k, v) :: fs) ++ ['\x7d']) from rfl]
  rw [jCharsFields_eq]
  simp only [List.length_cons, List.length_append, List.length_nil]
  try omega

theorem jRender (f : Nat) :
    (∀ j rest, numGuard j rest → (jChars j ++ rest).length < f →
      jParse f (jChars j ++ rest) = some (j, rest)) ∧
    (∀ xs rest, (itemsSep xs ++ ']' :: rest).length < f →
      jItems f (itemsSep xs ++ ']' :: rest) = some (xs, rest)) ∧
    (∀ k v rest, numGuard v rest →
      (quoteChars k ++ ':' :: (jChars v ++ rest)).length < f →
      jMember f (quoteChars k ++ ':' :: (jChars v ++ rest)) = some ((k, v), rest)) ∧
    (∀ fs rest, (fieldsSep fs ++ '\x7d' :: rest).length < f →
      jFields f (fieldsSep fs ++ '\x7d' :: rest) = some (fs, rest)) := by
  induction f with
  | zero =>
    refine ⟨?_, ?_, ?_, ?_⟩
    · intro j rest _ hf; exact absurd hf (by omega)
    · intro xs rest hf; exact absurd hf (by omega)
    · intro k v rest _ hf; exact absurd hf (by omega)
    · intro fs rest hf; exact absurd hf (by omega)
  | succ f ih =>
    obtain ⟨ihP, ihI, ihM, ihF⟩ := ih
    refine ⟨?_, ?_, ?_, ?_⟩
    · intro j rest hg hf
      cases j with
      | jnull =>
        rw [show jChars .jnull = ['n', 'u', 'l', 'l'] from rfl]
        simp only [List.cons_append, List.nil_append]
        rw [jParse]
        rw [dropWs_cons _ _ (by decide)]
        simp
      | jbool b =>
        cases b with
        | true =>
          rw [show jChars (.jbool true) = ['t', 'r', 'u', 'e'] from rfl]
          simp only [List.cons_append, List.nil_append]
          rw [jParse]
          rw [dropWs_cons _ _ (by decide)]
          simp
        | false =>
          rw [show jChars (.jbool false) = ['f', 'a', 'l', 's', 'e'] from rfl]
          simp only [List.cons_append, List.nil_append]
          rw [jParse]
          rw [dropWs_cons _ _ (by decide)]
          simp
      | jnum n => exact jParse_num n f rest hg
      | jstr s =>
        rw [show jChars (.jstr s) = '"' :: ((s.data.map escapeChar).flatten ++ ['"']) from rfl]
        simp only [List.cons_append, List.append_assoc, List.cons_append, List.nil_append]
        rw [jParse]
        rw [dropWs_cons _ _ (by decide)]
        simp only []
        rw [jStrBody_quote]
        simp [stringMk_data]
      | jarr items =>
        rw [show jChars (.jarr items) = '[' :: (jCharsItems items ++ [']']) from rfl]
        simp only [List.cons_append, List.append_assoc, List.cons_append, List.nil_append]
        rw [jParse]
        rw [dropWs_cons _ _ (by decide)]
        simp only []
        cases items with
        | nil =>
          rw [show jCharsItems [] = [] from rfl]
          simp only [List.nil_append]
          rw [dropWs_cons _ _ (by decide)]
          simp
        | cons x xs =>
          rw [jCharsItems_eq]
          obtain ⟨c, t, hct, hws, hbr, hbc⟩ := jChars_head x
          rw [hct]
          simp only [List.cons_append, List.append_assoc]
          rw [dropWs_cons _ _ hws]
          simp only []
          rw [if_neg hbr]
          rw [show (c :: (t ++ (itemsSep xs ++ ']' :: rest))) =
            jChars x ++ (itemsSep xs ++ ']' :: rest) from by rw [hct]; simp]
          rw [ihP x (itemsSep xs ++ ']' :: rest)
            (numGuard_of_head x _ (notDigitHead_itemsSep xs rest))
            (by simp only [List.length_append, List.length_cons] at hf ⊢
                rw [jChars_arr_len] at hf
                omega)]
          simp only []
          rw [ihI xs rest
            (by simp only [List.length_append, List.length_cons] at hf ⊢
                rw [jChars_arr_len] at hf
                omega)]
          simp
      | jobj fields =>
        rw [show jChars (.jobj fields) = '\x7b' :: (jCharsFields fields ++ ['\x7d']) from rfl]
        simp only [List.cons_append, List.append_assoc, List.cons_append, List.nil_append]
        rw [jParse]
        rw [dropWs_cons _ _ (by decide)]
        simp only []
        cases fields with
        | nil =>
          rw [show jCharsFields [] = [] from rfl]
          simp only [List.nil_append]
          rw [dropWs_cons _ _ (by decide)]
          simp
        | cons kv kvs =>
          obtain ⟨k, v⟩ := kv
          rw [jCharsFields_eq]
          rw [show quoteChars k = '"' :: ((k.data.map escapeChar).flatten ++ ['"']) from rfl]
          simp only [List.cons_append, List.append_assoc, List.cons_append, List.nil_append]
          rw [dropWs_cons _ _ (by decide)]
          simp only []
          rw [show ('"' :: ((k.data.map escapeChar).flatten ++
              ('"' :: ':' :: (jChars v ++ (fieldsSep kvs ++ '\x7d' :: rest))))) =
            quoteChars k ++ ':' :: (jChars v ++ (fieldsSep kvs ++ '\x7d' :: rest)) from by
              simp [quoteChars]]
          rw [ihM k v (fieldsSep kvs ++ '\x7d' :: rest)
            (numGuard_of_head v _ (notDigitHead_fieldsSep kvs rest))
            (by simp only [List.length_append, List.length_cons] at hf ⊢
                rw [jChars_obj_len] at hf
                omega)]
          simp only []
          rw [ihF kvs rest
            (by simp only [List.length_append, List.length_cons] at hf ⊢
                rw [jChars_obj_len] at hf
                omega)]
          simp
    · intro xs rest hf
      cases xs with
      | nil =>
        rw [show itemsSep [] = [] from rfl]
        simp only [List.nil_append]
        rw [jItems]
        rw [dropWs_cons _ _ (by decide)]
        simp
      | cons x xt =>
        rw [show itemsSep (x :: xt) = ',' :: (jChars x ++ itemsSep xt) from rfl] at hf ⊢
        simp only [List.cons_append, List.append_assoc]
        rw [jItems]
        rw [dropWs_cons _ _ (by decide)]
        simp only []
        rw [ihP x (itemsSep xt ++ ']' :: rest)
          (numGuard_of_head x _ (notDigitHead_itemsSep xt rest))
          (by simp only [List.length_cons, List.length_append] at hf ⊢
              omega)]
        simp only []
        rw [ihI xt rest
          (by simp only [List.length_cons, List.length_append] at hf ⊢
              omega)]
        simp
    · intro k v rest hg hf
      rw [show quoteChars k = '"' :: ((k.data.map escapeChar).flatten ++ ['"']) from rfl] at hf ⊢
      simp only [List.cons_append, List.append_assoc, List.cons_append, List.nil_append] at hf ⊢
      rw [jMember]
      rw [dropWs_cons _ _ (by decide)]
      simp only []
      rw [jStrBody_quote]
      simp only []
      rw [dropWs_cons _ _ (by decide)]
      simp only []
      rw [ihP v rest hg
        (by simp only [List.length_append, List.length_cons] at hf ⊢
            omega)]
      simp [stringMk_data]
    · intro fs rest hf
      cases fs with
      | nil =>
        rw [show fieldsSep [] = [] from rfl]
        simp only [List.nil_append]
        rw [jFields]
        rw [dropWs_cons _ _ (by decide)]
        simp
      | cons kv ft =>
        obtain ⟨k, v⟩ := kv
        rw [show fieldsSep ((k, v) :: ft) =
          ',' :: (quoteChars k ++ ':' :: (jChars v ++ fieldsSep ft)) from rfl] at hf ⊢
        simp only [List.cons_append, List.append_assoc]
        rw [jFields]
        rw [dropWs_cons _ _ (by decide)]
        simp only []
        rw [show (quoteChars k ++ (':' :: (jChars v ++ (fieldsSep ft ++ '\x7d' :: rest)))) =
          quoteChars k ++ ':' :: (jChars v ++ (fieldsSep ft ++ '\x7d' :: rest)) from rfl]
        rw [ihM k v (fieldsSep ft ++ '\x7d' :: rest)
          (numGuard_of_head v _ (notDigitHead_fieldsSep ft rest))
          (by simp only [List.length_cons, List.length_append] at hf ⊢
              omega)]
        simp only []
        rw [ihF ft rest
          (by simp only [List.length_cons, List.length_append] at hf ⊢
              omega)]
        simp

theorem jParse_render (j : Json) (f : Nat) (rest : List Char)
    (hg : numGuard j rest) (hf : (jChars j ++ rest).length < f) :
    jParse f (jChars j ++ rest) = some (j, rest) :=
  (jRender f).1 j rest hg hf

theorem jsonParse_stringify (j : Json) : jsonParse (jsonStringify j) = some j := by
  have h := jParse_render j ((jChars j).length + 1) []
    (numGuard_of_head j [] trivial) (by simp)
  rw [List.append_nil] at h
  have hd : (jsonStringify j).data = jChars j := rfl
  rw [jsonParse.eq_def, hd, h]
  simp [dropWs]

theorem decode_b64_json (j : Json) :
    decodeRoundState (b64encode (utf8Encode (jsonStringify j))) = some j := by
  rw [decodeRoundState, transport_roundtrip, jsonParse_stringify]

theorem toJson_truthy (r : RoundState) : jsTruthy r.toJson = true := rfl

theorem statusText_inj (a b : RoundStatus) (h : statusText a = statusText b) : a = b := by
  cases a <;> cases b <;> first | rfl | (exfalso; revert h; decide)

theorem toJson_inj (r1 r2 : RoundState) (h : r1.toJson = r2.toJson) : r1 = r2 := by
  obtain ⟨v1, o1, s1, t1, c1, q1, a1⟩ := r1
  obtain ⟨v2, o2, s2, t2, c2, q2, a2⟩ := r2
  simp only [RoundState.toJson, Json.jobj.injEq] at h
  cases q1 <;> cases q2 <;> cases a1 <;> cases a2 <;>
    simp_all <;> exact statusText_inj _ _ (by simp_all)

theorem takeWhile_run (p : Char → Bool) (xs rest : List Char)
    (hxs : ∀ c ∈ xs, p c = true) (hrest : headFails p rest) :
    (xs ++ rest).takeWhile p = xs ∧ (xs ++ rest).dropWhile p = rest := by
  induction xs with
  | nil =>
    cases rest with
    | nil => simp
    | cons c t =>
      simp only [headFails] at hrest
      simp [List.takeWhile_cons, List.dropWhile_cons, hrest]
  | cons c t ih =>
    have hc := hxs c (by simp)
    have ht := ih (fun x hx => hxs x (by simp [hx]))
    simp [List.takeWhile_cons, List.dropWhile_cons, hc, ht.1, ht.2]

theorem span1_run (p : Char → Bool) (xs rest : List Char) (hne : xs ≠ [])
    (hxs : ∀ c ∈ xs, p c = true) (hrest : headFails p rest) :
    span1 p (xs ++ rest) = some (xs, rest) := by
  obtain ⟨h1, h2⟩ := takeWhile_run p xs rest hxs hrest
  unfold span1
  rw [h1, h2]
  cases xs with
  | nil => exact absurd rfl hne
  | cons c t => rfl

theorem lit_self (l cs : List Char) : lit l (l ++ cs) = some cs := by
  induction l with
  | nil => rfl
  | cons c t ih => simp [lit, ih]

theorem lit_cons_self (c : Char) (cs : List Char) : lit [c] (c :: cs) = some cs := by
  simp [lit]

theorem wsField_run (name : List Char) (p : Char → Bool) (xs rest : List Char)
    (hname : headFails wsChar (name ++ (xs ++ rest)))
    (hne : xs ≠ []) (hxs : ∀ c ∈ xs, p c = true) (hrest : headFails p rest) :
    wsField name p (' ' :: (name ++ (xs ++ rest))) = some (xs, rest) := by
  unfold wsField
  rw [show (' ' :: (name ++ (xs ++ rest))) = [' '] ++ (name ++ (xs ++ rest)) from rfl]
  rw [span1_run wsChar [' '] _ (by simp) (by intro c hc; simp at hc; subst hc; rfl) hname]
  simp only []
  rw [lit_self]
  simp only []
  rw [span1_run p xs rest hne hxs hrest]

theorem legacyAt_run (ver opg st ts ch : List Char) (ans : Option (List Char))
    (hver1 : ver ≠ []) (hver2 : ∀ c ∈ ver, c.isDigit = true)
    (hop1 : opg ≠ []) (hop2 : ∀ c ∈ opg, wordChar c = true)
    (hst1 : st ≠ []) (hst2 : ∀ c ∈ st, wordChar c = true)
    (hts1 : ts ≠ []) (hts2 : ∀ c ∈ ts, tsChar c = true)
    (hch1 : ch ≠ []) (hch2 : ∀ c ∈ ch, wordChar c = true)
    (hans : ∀ a ∈ ans, a ≠ [] ∧ ∀ c ∈ a, (!(c = ']')) = true) :
    legacyAt (mkLegacyLine ver opg st ts ch ans).data =
      some { version := ver, op := opg, status := st, threadTs := ts,
             channelId := ch, answer := ans } := by
  cases ans with
  | none =>
    unfold legacyAt
    rw [show (mkLegacyLine ver opg st ts ch none).data =
        ['[', 'l', 'o', 'g', 'i', 'c', '_', 'r', 'o', 'u', 'n', 'd', ' ', 'v'] ++ (ver ++ (']' :: (' ' :: (['o', 'p', '='] ++ (opg ++ (' ' :: (['s', 't', 'a', 't', 'u', 's', '='] ++ (st ++ (' ' :: (['t', 'h', 'r', 'e', 'a', 'd', 'T', 's', '='] ++ (ts ++ (' ' :: (['c', 'h', 'a', 'n', 'n', 'e', 'l', 'I', 'd', '='] ++ (ch ++ ([]))))))))))))))) from rfl]
    rw [lit_self]
    simp only []
    rw [span1_run Char.isDigit ver _ hver1 hver2 (by exact rfl)]
    simp only []
    rw [lit_cons_self]
    simp only []
    rw [wsField_run ['o', 'p', '='] wordChar opg _ (by exact rfl) hop1 hop2 (by exact rfl)]
    simp only []
    rw [wsField_run ['s', 't', 'a', 't', 'u', 's', '='] wordChar st _ (by exact rfl) hst1 hst2 (by exact rfl)]
    simp only []
    rw [wsField_run ['t', 'h', 'r', 'e', 'a', 'd', 'T', 's', '='] tsChar ts _ (by exact rfl) hts1 hts2 (by exact rfl)]
    simp only []
    rw [wsField_run ['c', 'h', 'a', 'n', 'n', 'e', 'l', 'I', 'd', '='] wordChar ch _ (by exact rfl) hch1 hch2 (by exact trivial)]
    rfl
  | some a =>
    obtain ⟨ha1, ha2⟩ := hans a (by simp)
    unfold legacyAt
    rw [show (mkLegacyLine ver opg st ts ch (some a)).data =
        ['[', 'l', 'o', 'g', 'i', 'c', '_', 'r', 'o', 'u', 'n', 'd', ' ', 'v'] ++ (ver ++ (']' :: (' ' :: (['o', 'p', '='] ++ (opg ++ (' ' :: (['s', 't', 'a', 't', 'u', 's', '='] ++ (st ++ (' ' :: (['t', 'h', 'r', 'e', 'a', 'd', 'T', 's', '='] ++ (ts ++ (' ' :: (['c', 'h', 'a', 'n', 'n', 'e', 'l', 'I', 'd', '='] ++ (ch ++ (' ' :: (['a', 'n', 's', 'w', 'e', 'r', '='] ++ a)))))))))))))))) from rfl]
    rw [lit_self]
    simp only []
    rw [span1_run Char.isDigit ver _ hver1 hver2 (by exact rfl)]
    simp only []
    rw [lit_cons_self]
    simp only []
    rw [wsField_run ['o', 'p', '='] wordChar opg _ (by exact rfl) hop1 hop2 (by exact rfl)]
    simp only []
    rw [wsField_run ['s', 't', 'a', 't', 'u', 's', '='] wordChar st _ (by exact rfl) hst1 hst2 (by exact rfl)]
    simp only []
    rw [wsField_run ['t', 'h', 'r', 'e', 'a', 'd', 'T', 's', '='] tsChar ts _ (by exact rfl) hts1 hts2 (by exact rfl)]
    simp only []
    rw [wsField_run ['c', 'h', 'a', 'n', 'n', 'e', 'l', 'I', 'd', '='] wordChar ch _ (by exact rfl) hch1 hch2 (by exact rfl)]
    simp only []
    rw [show (['a', 'n', 's', 'w', 'e', 'r', '='] ++ a) = ['a', 'n', 's', 'w', 'e', 'r', '='] ++ (a ++ []) from by rw [List.append_nil]]
    rw [wsField_run ['a', 'n', 's', 'w', 'e', 'r', '='] (fun c => !(c = ']')) a [] (by exact rfl) ha1 ha2 (by exact trivial)]
    rfl

theorem legacyFind_run (ver opg st ts ch : List Char) (ans : Option (List Char))
    (hver1 : ver ≠ []) (hver2 : ∀ c ∈ ver, c.isDigit = true)
    (hop1 : opg ≠ []) (hop2 : ∀ c ∈ opg, wordChar c = true)
    (hst1 : st ≠ []) (hst2 : ∀ c ∈ st, wordChar c = true)
    (hts1 : ts ≠ []) (hts2 : ∀ c ∈ ts, tsChar c = true)
    (hch1 : ch ≠ []) (hch2 : ∀ c ∈ ch, wordChar c = true)
    (hans : ∀ a ∈ ans, a ≠ [] ∧ ∀ c ∈ a, (!(c = ']')) = true) :
    legacyFind (mkLegacyLine ver opg st ts ch ans).data =
      some { version := ver, op := opg, status := st, threadTs := ts,
             channelId := ch, answer := ans } := by
  have h := legacyAt_run ver opg st ts ch ans hver1 hver2 hop1 hop2 hst1 hst2
    hts1 hts2 hch1 hch2 hans
  cases ans with
  | none =>
    rw [show (mkLegacyLine ver opg st ts ch none).data =
        '[' :: (['l', 'o', 'g', 'i', 'c', '_', 'r', 'o', 'u', 'n', 'd', ' ', 'v'] ++ (ver ++ (']' :: (' ' :: (['o', 'p', '='] ++ (opg ++ (' ' :: (['s', 't', 'a', 't', 'u', 's', '='] ++ (st ++ (' ' :: (['t', 'h', 'r', 'e', 'a', 'd', 'T', 's', '='] ++ (ts ++ (' ' :: (['c', 'h', 'a', 'n', 'n', 'e', 'l', 'I', 'd', '='] ++ (ch ++ ([])))))))))))))))) from rfl] at h ⊢
    rw [legacyFind.eq_def]
    simp only []
    rw [h]
  | some a =>
    rw [show (mkLegacyLine ver opg st ts ch (some a)).data =
        '[' :: (['l', 'o', 'g', 'i', 'c', '_', 'r', 'o', 'u', 'n', 'd', ' ', 'v'] ++ (ver ++ (']' :: (' ' :: (['o', 'p', '='] ++ (opg ++ (' ' :: (['s', 't', 'a', 't', 'u', 's', '='] ++ (st ++ (' ' :: (['t', 'h', 'r', 'e', 'a', 'd', 'T', 's', '='] ++ (ts ++ (' ' :: (['c', 'h', 'a', 'n', 'n', 'e', 'l', 'I', 'd', '='] ++ (ch ++ (' ' :: (['a', 'n', 's', 'w', 'e', 'r', '='] ++ a))))))))))))))))) from rfl] at h ⊢
    rw [legacyFind.eq_def]
    simp only []
    rw [h]

theorem b64scan_line (R : List Char) :
    b64scan (['[', 'l', 'o', 'g', 'i', 'c', '_', 'r', 'o', 'u', 'n', 'd', ' ', 'v'] ++ R) =
      37 :: 40 :: 32 :: 34 :: (28 :: 43 :: 40 :: 46 :: 39 :: 29 :: 47 :: b64scan R) := rfl

theorem b64bytes_cont (v2 v3 : Nat) (rest : List Nat) :
    b64bytes (37 :: 40 :: 32 :: 34 :: (v2 :: v3 :: rest)) =
      150 :: (136 :: 34 :: b64bytes (v2 :: v3 :: rest)) := rfl

theorem utf8Decode_150 (rest : List Nat) :
    utf8Decode (150 :: rest) = replChar :: utf8Decode rest := by
  rw [utf8Decode.eq_def]
  simp

theorem jsonParse_repl (cs : List Char) :
    jsonParse (String.mk (replChar :: cs)) = none := by
  rw [jsonParse.eq_def]
  rw [show (String.mk (replChar :: cs)).data = replChar :: cs from rfl]
  rw [show (replChar :: cs).length = cs.length + 1 from rfl]
  rw [jParse]
  rw [dropWs_cons _ _ (by decide)]
  simp only []
  rw [if_neg (by decide), if_neg (by decide), if_neg (by decide), if_neg (by decide),
      if_neg (by decide), if_neg (by decide), if_neg (by decide), if_neg (by decide)]

theorem decode_line_none (R : List Char) :
    decodeRoundState (String.mk (['[', 'l', 'o', 'g', 'i', 'c', '_', 'r', 'o', 'u', 'n', 'd', ' ', 'v'] ++ R)) = none := by
  rw [decodeRoundState, b64decode]
  rw [show (String.mk (['[', 'l', 'o', 'g', 'i', 'c', '_', 'r', 'o', 'u', 'n', 'd', ' ', 'v'] ++ R)).data = ['[', 'l', 'o', 'g', 'i', 'c', '_', 'r', 'o', 'u', 'n', 'd', ' ', 'v'] ++ R from rfl]
  rw [b64scan_line, b64bytes_cont, utf8String, utf8Decode_150]
  exact jsonParse_repl _

/-! ### Scoreboard lemmas -/

theorem nonnegScores_runSbOp (d : ScoreboardData) (op : SbOp) (now : String)
    (h : NonnegScores d) : NonnegScores (runSbOp d (op, now)) := by
  cases op with
  | addPoints u p y =>
    cases y with
    | none =>
      simp only [runSbOp, addPoints, updateScoreboard, addPointsFn]
      simpa [NonnegScores] using h
    | some yy =>
      by_cases hneg : (alGet (yearScores d yy) u).getD 0 + p < 0
      · simpa [runSbOp, addPoints, updateScoreboard, addPointsFn, hneg] using h
      · simp only [runSbOp, addPoints, updateScoreboard, addPointsFn, hneg, if_neg]
        simp only [NonnegScores] at h ⊢
        intro q hq r hr
        rcases mem_alSet hq with hq1 | hq1
        · subst hq1
          rcases mem_alSet hr with hr1 | hr1
          · subst hr1
            simpa using not_lt.mp hneg
          · revert hr1
            unfold yearScores
            cases halg : alGet d.scoresByYear yy with
            | none => intro hr1; simp at hr1
            | some ym0 => intro hr1; exact h _ (alGet_mem halg) r hr1
        · exact h q hq1 r hr
  | addQuestion u y =>
    simp only [runSbOp, addQuestion, updateScoreboard]
    simpa [NonnegScores, addQuestionFn] using h
  | removeQuestion u y =>
    simp only [runSbOp, removeQuestion, updateScoreboard]
    simpa [NonnegScores, removeQuestionFn] using h

/-- C3: for every sequence of `addPoints`/`addQuestion`/`removeQuestion`
operations applied to a scoreboard with nonnegative scores, every stored
score stays `≥ 0`; an `addPoints` whose delta would drive the score below
zero throws with the offending value in the message, and the stored
`ScoreboardData` is exactly unchanged (not clamped), so neither the
display nor the data message is written for it. -/
theorem C3_scoreboard_nonneg :
    (∀ (d0 : ScoreboardData) (ops : List (SbOp × String)),
        NonnegScores d0 → NonnegScores (runSbOps d0 ops)) ∧
    (∀ (d : ScoreboardData) (now u y : String) (p : Int),
        getScore d y u + p < 0 →
        addPoints now u p (some y) d =
          .error ("Cannot set score to negative value. Result would be "
                  ++ toString (getScore d y u + p) ++ ".") ∧
        runSbOp d (.addPoints u p (some y), now) = d) := by
  constructor
  · intro d0 ops h
    induction ops generalizing d0 with
    | nil => exact h
    | cons op rest ih =>
      obtain ⟨op0, now0⟩ := op
      exact ih (runSbOp d0 (op0, now0)) (nonnegScores_runSbOp d0 op0 now0 h)
  · intro d now u y p hneg
    constructor
    · simp [addPoints, updateScoreboard, addPointsFn, getScore] at hneg ⊢
      simp [hneg]
    · simp [runSbOp, addPoints, updateScoreboard, addPointsFn, getScore] at hneg ⊢
      simp [hneg]

/-- Witness for C3 at concrete inputs: a deposit-then-withdraw sequence
keeps scores nonnegative, and an over-withdrawal is rejected leaving the
stored data unchanged. -/
theorem C3_scoreboard_nonneg_witness :
    NonnegScores (runSbOps ⟨[("2024", [("U1", 3)])], [], "t0"⟩
      [(.addPoints "U1" (-3) (some "2024"), "t1"), (.addQuestion "U2" "2024", "t2")]) ∧
    (addPoints "t3" "U1" (-4) (some "2024") ⟨[("2024", [("U1", 3)])], [], "t0"⟩ =
       .error "Cannot set score to negative value. Result would be -1." ∧
     runSbOp ⟨[("2024", [("U1", 3)])], [], "t0"⟩ (.addPoints "U1" (-4) (some "2024"), "t3") =
       ⟨[("2024", [("U1", 3)])], [], "t0"⟩) := by
  refine ⟨C3_scoreboard_nonneg.1 _ _ (by decide), ?_⟩
  have h := C3_scoreboard_nonneg.2 ⟨[("2024", [("U1", 3)])], [], "t0"⟩ "t3" "U1" "2024" (-4)
    (by decide)
  exact ⟨by rw [h.1] ; rfl, h.2⟩

/-- C7: `removeQuestion` on a stored count of exactly 1 deletes the
identity's entry from the year map (no zero entry is stored); on an
absent entry it changes no stored question count. -/
theorem C7_removeQuestion :
    ∀ (d : ScoreboardData) (now u y : String),
      (alGet (yearQuestions d y) u = some 1 →
        alGet (yearQuestions (removeQuestion now u y d) y) u = none) ∧
      (alGet (yearQuestions d y) u = none →
        ∀ y' u', getQCount (removeQuestion now u y d) y' u' = getQCount d y' u') := by
  intro d now u y
  constructor
  · intro h1
    simp only [removeQuestion, updateScoreboard, removeQuestionFn, h1]
    simp only [yearQuestions, Option.getD_some]
    norm_num
    simp [alGet_alSet, alGet_alDrop]
  · intro h0
    simp only [removeQuestion, updateScoreboard, removeQuestionFn, h0]
    simp only [yearQuestions, Option.getD_none]
    norm_num
    have hdrop : alDrop ((alGet d.questionsByYear y).getD []) u =
        (alGet d.questionsByYear y).getD [] :=
      alDrop_of_none (by simpa [yearQuestions] using h0)
    rw [hdrop]
    intro y' u'
    by_cases hy : y = y'
    · subst hy
      simp [getQCount, yearQuestions, alGet_alSet]
    · simp [getQCount, yearQuestions, alGet_alSet, hy]

/-! ### Handler lemmas -/

theorem status_not_open {s : RoundStatus} (h : s ≠ .OPEN) :
    s = .SOLVED ∨ s = .CLOSED := by
  cases s <;> simp_all

/-- `confirm_solve` on an already-settled round: only the DM changes. -/
theorem confirm_solve_settled (data : SolvePromptPayload) (now : String) (w : World)
    (st : RoundState) (h : w.round = some st)
    (hs : st.status = .SOLVED ∨ st.status = .CLOSED) :
    confirm_solve data now w =
      (w, .cancelled ("This round was already " ++
        (if st.status = .CLOSED then "closed" else "solved") ++ " (no changes made).")) := by
  simp only [confirm_solve, h]
  rw [if_pos hs]

theorem confirm_private_solve_settled (data : PrivateAnswerPayload) (now : String) (w : World)
    (st : RoundState) (h : w.round = some st)
    (hs : st.status = .SOLVED ∨ st.status = .CLOSED) :
    confirm_private_solve data now w =
      (w, .cancelled ("This round was already " ++
        (if st.status = .CLOSED then "closed" else "solved") ++ " (no changes made).")) := by
  simp only [confirm_private_solve, h]
  rw [if_pos hs]

theorem confirm_solve_noround (data : SolvePromptPayload) (now : String) (w : World)
    (h : w.round = none) :
    confirm_solve data now w =
      (w, .cancelled "This round was already solved (no changes made).") := by
  simp [confirm_solve, h]

/-- `confirm_solve` on an OPEN round writes the SOLVED state with the
payload's answer (whether or not the scoreboard update then throws). -/
theorem confirm_solve_open_round (data : SolvePromptPayload) (now : String) (w : World)
    (st : RoundState) (h : w.round = some st) (ho : st.status = .OPEN) :
    ((confirm_solve data now w).1).round =
      some { st with status := .SOLVED, answer := some data.answerText } := by
  simp only [confirm_solve, h, ho]
  cases hap : addPoints now data.guessAuthorId 1
      (some (getYearFromTimestamp data.threadTs)) w.scoreboard <;>
    simp [hap]

theorem confirm_private_solve_open_round (data : PrivateAnswerPayload) (now : String)
    (w : World) (st : RoundState) (h : w.round = some st) (ho : st.status = .OPEN) :
    ((confirm_private_solve data now w).1).round =
      some { st with status := .SOLVED, answer := some data.answerText } := by
  simp only [confirm_private_solve, h, ho]
  cases hap : addPoints now data.submitterId 1
      (some (getYearFromTimestamp data.threadTs)) w.scoreboard <;>
    simp [hap]

theorem addPoints_ok (now u y : String) (p : Int) (d : ScoreboardData)
    (h : 0 ≤ getScore d y u + p) :
    addPoints now u p (some y) d =
      .ok ⟨alSet d.scoresByYear y (alSet (yearScores d y) u (getScore d y u + p)),
           d.questionsByYear, now⟩ := by
  simp only [addPoints, updateScoreboard, addPointsFn, getScore] at h ⊢
  rw [if_neg (not_lt.mpr h)]

theorem addPoints_err (now u y : String) (p : Int) (d : ScoreboardData)
    (h : getScore d y u + p < 0) :
    addPoints now u p (some y) d =
      .error ("Cannot set score to negative value. Result would be "
              ++ toString (getScore d y u + p) ++ ".") := by
  simp only [addPoints, updateScoreboard, addPointsFn, getScore] at h ⊢
  rw [if_pos h]

/-- Score after a successful `addPoints` at the written key. -/
theorem getScore_addPoints_self (y u : String) (v : Int) (d : ScoreboardData)
    (now : String) :
    getScore ⟨alSet d.scoresByYear y (alSet (yearScores d y) u v),
              d.questionsByYear, now⟩ y u = v := by
  simp [getScore, yearScores, alGet_alSet]

theorem yearScores_addPoints_other (y y' u : String) (v : Int) (d : ScoreboardData)
    (now : String) (hy : y' ≠ y) :
    yearScores ⟨alSet d.scoresByYear y (alSet (yearScores d y) u v),
                d.questionsByYear, now⟩ y' = yearScores d y' := by
  simp [yearScores, alGet_alSet, (Ne.symm hy)]

/-- On an OPEN round the confirm step bumps the score at the thread-year
key by at most one, and exactly one when the old score is nonnegative. -/
theorem confirm_solve_score (data : SolvePromptPayload) (now : String) (w : World)
    (st : RoundState) (h : w.round = some st) (ho : st.status = .OPEN) :
    getScore ((confirm_solve data now w).1).scoreboard
        (getYearFromTimestamp data.threadTs) data.guessAuthorId ≤
      getScore w.scoreboard (getYearFromTimestamp data.threadTs) data.guessAuthorId + 1 ∧
    (0 ≤ getScore w.scoreboard (getYearFromTimestamp data.threadTs) data.guessAuthorId →
      getScore ((confirm_solve data now w).1).scoreboard
          (getYearFromTimestamp data.threadTs) data.guessAuthorId =
        getScore w.scoreboard (getYearFromTimestamp data.threadTs) data.guessAuthorId + 1) := by
  by_cases hneg : getScore w.scoreboard (getYearFromTimestamp data.threadTs) data.guessAuthorId + 1 < 0
  · have herr := addPoints_err now data.guessAuthorId (getYearFromTimestamp data.threadTs) 1
      w.scoreboard hneg
    constructor
    · simp only [confirm_solve, h, ho]
      simp [herr]
    · intro hnn; omega
  · have hok := addPoints_ok now data.guessAuthorId (getYearFromTimestamp data.threadTs) 1
      w.scoreboard (not_lt.mp hneg)
    have hval : getScore ((confirm_solve data now w).1).scoreboard
        (getYearFromTimestamp data.threadTs) data.guessAuthorId =
        getScore w.scoreboard (getYearFromTimestamp data.threadTs) data.guessAuthorId + 1 := by
      simp only [confirm_solve, h, ho]
      simp [hok, getScore_addPoints_self]
    exact ⟨le_of_eq hval, fun _ => hval⟩

/-- A settled round is a fixed point of every handler step. -/
theorem runStep_settled (s : HandlerStep) (w : World) (st : RoundState)
    (h : w.round = some st) (hs : st.status ≠ .OPEN) : runStep s w = w := by
  have hs2 := status_not_open hs
  cases s with
  | confirmSolve data now =>
    simp [runStep, confirm_solve_settled data now w st h hs2]
  | confirmPrivateSolve data now =>
    simp [runStep, confirm_private_solve_settled data now w st h hs2]
  | closeRound u e t now =>
    by_cases hu : u = e
    · rcases hs2 with hcase | hcase <;>
        simp [runStep, close_round, validateOpAndRound, hu, h, hcase]
    · simp [runStep, close_round, validateOpAndRound, hu]
  | editQuestion u o q =>
    by_cases hu : u = o
    · by_cases hq : q.trim = ""
      · simp [runStep, edit_question_modal, hu, hq]
      · rcases hs2 with hcase | hcase <;>
          simp [runStep, edit_question_modal, hu, hq, h, hcase]
    · simp [runStep, edit_question_modal, hu]

/-- A round-less world is a fixed point of the confirm handlers. -/
theorem confirmTimes_fixed (data : SolvePromptPayload) (now : String) (n : Nat)
    (w : World) (hfix : (confirm_solve data now w).1 = w) :
    confirmTimes data now n w = w := by
  induction n with
  | zero => rfl
  | succ n ih => simp [confirmTimes, hfix, ih]

/-- C1: the round state machine is `OPEN -> SOLVED` and
`OPEN -> CLOSED`, both terminal: (1) a round whose status is SOLVED or
CLOSED is a fixed point of every handler step (confirm solve, confirm
private solve, close, edit); (2) any step that changes the status
starts from OPEN and lands on SOLVED or CLOSED (so CLOSED never becomes
SOLVED nor vice versa); (3) a close of an already-CLOSED round is
rejected with "This round is already closed." and changes nothing. -/
theorem C1_round_state_machine :
    (∀ (s : HandlerStep) (w : World) (st : RoundState),
        w.round = some st → st.status ≠ .OPEN → runStep s w = w) ∧
    (∀ (s : HandlerStep) (w : World) (st st' : RoundState),
        w.round = some st → (runStep s w).round = some st' → st'.status ≠ st.status →
        st.status = .OPEN ∧ (st'.status = .SOLVED ∨ st'.status = .CLOSED)) ∧
    (∀ (userId expectedOp threadTs now : String) (w : World) (st : RoundState),
        w.round = some st → st.status = .CLOSED → userId = expectedOp →
        close_round userId expectedOp threadTs now w =
          (w, some "This round is already closed.")) := by
  refine ⟨runStep_settled, ?_, ?_⟩
  · intro s w st st' h h' hne
    by_cases ho : st.status = .OPEN
    · refine ⟨ho, ?_⟩
      cases s with
      | confirmSolve data now =>
        have hch := confirm_solve_open_round data now w st h ho
        simp only [runStep] at h'
        rw [hch] at h'
        cases h'
        exact Or.inl rfl
      | confirmPrivateSolve data now =>
        have hch := confirm_private_solve_open_round data now w st h ho
        simp only [runStep] at h'
        rw [hch] at h'
        cases h'
        exact Or.inl rfl
      | closeRound u e t now =>
        by_cases hu : u = e
        · have hch : ((close_round u e t now w).1).round = some { st with status := .CLOSED } := by
            simp [close_round, validateOpAndRound, hu, h, ho]
          simp only [runStep] at h'
          rw [hch] at h'
          cases h'
          exact Or.inr rfl
        · have hch : (close_round u e t now w).1 = w := by
            simp [close_round, validateOpAndRound, hu]
          simp only [runStep] at h'
          rw [hch, h] at h'
          cases h'
          exact absurd rfl hne
      | editQuestion u o q =>
        exfalso
        by_cases hu : u = o
        · by_cases hq : q.trim = ""
          · have hch : (edit_question_modal u o q w).1 = w := by
              simp [edit_question_modal, hu, hq]
            simp only [runStep] at h'
            rw [hch, h] at h'
            cases h'
            exact hne rfl
          · have hch : ((edit_question_modal u o q w).1).round =
                some { st with question := some q.trim } := by
              simp [edit_question_modal, hu, hq, h, ho]
            simp only [runStep] at h'
            rw [hch] at h'
            cases h'
            exact hne rfl
        · have hch : (edit_question_modal u o q w).1 = w := by
            simp [edit_question_modal, hu]
          simp only [runStep] at h'
          rw [hch, h] at h'
          cases h'
          exact hne rfl
    · have hfix := runStep_settled s w st h ho
      rw [hfix, h] at h'
      cases h'
      exact absurd rfl hne
  · intro userId expectedOp threadTs now w st h hc he
    simp [close_round, validateOpAndRound, he, h, hc]

/-- Witness for C1 at a concrete CLOSED round: an edit attempt changes
nothing, and a second close is rejected with "already closed". -/
theorem C1_round_state_machine_witness :
    runStep (.editQuestion "OP" "OP" "new question")
        ⟨some ⟨"1", "OP", .CLOSED, "1.2", "C1", none, none⟩, ⟨[], [], "t0"⟩⟩ =
      ⟨some ⟨"1", "OP", .CLOSED, "1.2", "C1", none, none⟩, ⟨[], [], "t0"⟩⟩ ∧
    close_round "OP" "OP" "1.2" "t1"
        ⟨some ⟨"1", "OP", .CLOSED, "1.2", "C1", none, none⟩, ⟨[], [], "t0"⟩⟩ =
      (⟨some ⟨"1", "OP", .CLOSED, "1.2", "C1", none, none⟩, ⟨[], [], "t0"⟩⟩,
       some "This round is already closed.") := by
  constructor
  · exact C1_round_state_machine.1 (.editQuestion "OP" "OP" "new question")
      ⟨some ⟨"1", "OP", .CLOSED, "1.2", "C1", none, none⟩, ⟨[], [], "t0"⟩⟩
      ⟨"1", "OP", .CLOSED, "1.2", "C1", none, none⟩ rfl (by decide)
  · exact C1_round_state_machine.2.2 "OP" "OP" "1.2" "t1"
      ⟨some ⟨"1", "OP", .CLOSED, "1.2", "C1", none, none⟩, ⟨[], [], "t0"⟩⟩
      ⟨"1", "OP", .CLOSED, "1.2", "C1", none, none⟩ rfl rfl rfl

/-- C4: a confirm press on an already SOLVED or CLOSED round changes
neither the round nor the scoreboard and only resolves the DM to the
cancelled "no changes made" text (for both the public and the private
confirm handler); consequently any number of sequential confirm presses
awards the point for the round at most once. -/
theorem C4_confirm_at_most_once :
    (∀ (data : SolvePromptPayload) (now : String) (w : World) (st : RoundState),
        w.round = some st → st.status = .SOLVED ∨ st.status = .CLOSED →
        confirm_solve data now w =
          (w, .cancelled ("This round was already " ++
            (if st.status = .CLOSED then "closed" else "solved") ++ " (no changes made)."))) ∧
    (∀ (data : PrivateAnswerPayload) (now : String) (w : World) (st : RoundState),
        w.round = some st → st.status = .SOLVED ∨ st.status = .CLOSED →
        confirm_private_solve data now w =
          (w, .cancelled ("This round was already " ++
            (if st.status = .CLOSED then "closed" else "solved") ++ " (no changes made)."))) ∧
    (∀ (data : SolvePromptPayload) (now : String) (n : Nat) (w : World),
        getScore (confirmTimes data now n w).scoreboard
            (getYearFromTimestamp data.threadTs) data.guessAuthorId ≤
          getScore w.scoreboard (getYearFromTimestamp data.threadTs) data.guessAuthorId + 1) := by
  refine ⟨confirm_solve_settled, confirm_private_solve_settled, ?_⟩
  intro data now n w
  cases hw : w.round with
  | none =>
    have hfix : (confirm_solve data now w).1 = w := by
      rw [confirm_solve_noround data now w hw]
    rw [confirmTimes_fixed data now n w hfix]
    omega
  | some st =>
    by_cases ho : st.status = .OPEN
    · cases n with
      | zero =>
        simp only [confirmTimes]
        omega
      | succ n =>
        have hw1round := confirm_solve_open_round data now w st hw ho
        have hscore1 := (confirm_solve_score data now w st hw ho).1
        have hfixed : confirmTimes data now n (confirm_solve data now w).1 =
            (confirm_solve data now w).1 := by
          apply confirmTimes_fixed
          have hsettled := confirm_solve_settled data now (confirm_solve data now w).1
            ({ st with status := .SOLVED, answer := some data.answerText }) hw1round (Or.inl rfl)
          rw [hsettled]
        calc getScore (confirmTimes data now (n + 1) w).scoreboard
              (getYearFromTimestamp data.threadTs) data.guessAuthorId
            = getScore (confirmTimes data now n (confirm_solve data now w).1).scoreboard
              (getYearFromTimestamp data.threadTs) data.guessAuthorId := rfl
          _ = getScore ((confirm_solve data now w).1).scoreboard
              (getYearFromTimestamp data.threadTs) data.guessAuthorId := by rw [hfixed]
          _ ≤ getScore w.scoreboard (getYearFromTimestamp data.threadTs) data.guessAuthorId + 1 :=
              hscore1
    · have hfix : (confirm_solve data now w).1 = w := by
        rw [confirm_solve_settled data now w st hw (status_not_open ho)]
      rw [confirmTimes_fixed data now n w hfix]
      omega

/-- Witness for C4: a second press on a concrete SOLVED round only
cancels the DM, and three presses on an OPEN round award at most one
point. -/
theorem C4_confirm_at_most_once_witness :
    confirm_solve ⟨"C1", "1.2", "UB", "9.9", "q", "a", "D1", "5.5"⟩ "t1"
        ⟨some ⟨"1", "OP", .SOLVED, "1.2", "C1", none, some "a"⟩, ⟨[], [], "t0"⟩⟩ =
      (⟨some ⟨"1", "OP", .SOLVED, "1.2", "C1", none, some "a"⟩, ⟨[], [], "t0"⟩⟩,
       .cancelled "This round was already solved (no changes made).") ∧
    getScore (confirmTimes ⟨"C1", "1.2", "UB", "9.9", "q", "a", "D1", "5.5"⟩ "t1" 3
        ⟨some ⟨"1", "OP", .OPEN, "1.2", "C1", none, none⟩, ⟨[], [], "t0"⟩⟩).scoreboard
        (getYearFromTimestamp "1.2") "UB" ≤
      getScore (⟨[], [], "t0"⟩ : ScoreboardData) (getYearFromTimestamp "1.2") "UB" + 1 := by
  constructor
  · have h := C4_confirm_at_most_once.1 ⟨"C1", "1.2", "UB", "9.9", "q", "a", "D1", "5.5"⟩ "t1"
      ⟨some ⟨"1", "OP", .SOLVED, "1.2", "C1", none, some "a"⟩, ⟨[], [], "t0"⟩⟩
      ⟨"1", "OP", .SOLVED, "1.2", "C1", none, some "a"⟩ rfl (Or.inl rfl)
    simpa using h
  · exact C4_confirm_at_most_once.2.2 ⟨"C1", "1.2", "UB", "9.9", "q", "a", "D1", "5.5"⟩ "t1" 3
      ⟨some ⟨"1", "OP", .OPEN, "1.2", "C1", none, none⟩, ⟨[], [], "t0"⟩⟩

/-- C5: with the ambient Slack lookups succeeding (allowed channel,
`:yes:` reaction, item timestamp present, message found, in a thread,
reacted message found, author field present), the reaction handler
sends the DM confirmation iff the round exists and is OPEN, the reactor
is the OP, the reacted-to author is not the bot, and the reacted-to
author is not the OP unless the channel is the designated test channel;
otherwise it is a silent no-op. -/
theorem C5_reaction_guards :
    ∀ (ctx : ReactionCtx) (ev : ReactionEvent) (round : Option RoundState),
      ctx.allowedChannels.contains ev.channel = true →
      ev.reaction = "yes" → ev.hasItemTs = true →
      (reaction_added ctx ev true true true true round = true ↔
        ∃ st, round = some st ∧ st.status = .OPEN ∧ ev.user = st.op ∧
          ev.itemUser ≠ ctx.botUserId ∧
          (ev.itemUser ≠ st.op ∨ ctx.testChannelId = some ev.channel)) := by
  intro ctx ev round hall hyes hts
  simp only [reaction_added, hall, hyes, hts]
  cases round with
  | none => simp
  | some st =>
    by_cases hs : st.status = .SOLVED ∨ st.status = .CLOSED
    · have hno : st.status ≠ .OPEN := by
        rcases hs with h1 | h1 <;> rw [h1] <;> simp
      simp [hs, hno]
    · have hopen : st.status = .OPEN := by
        cases hq : st.status <;> simp_all
      by_cases hu : ev.user = st.op
      · by_cases hb : ev.itemUser = ctx.botUserId
        · simp [hs, hu, hb, hopen]
        · by_cases hio : ev.itemUser = st.op
          · by_cases htest : ctx.testChannelId = some ev.channel <;>
              simp [hs, hu, hb, hio, htest, hopen]
          · simp [hs, hu, hb, hio, hopen]
      · simp [hs, hu, hopen]

/-- Witness for C5: in the test channel an OP reacting to the OP's own
message triggers the DM; outside it the same reaction is a no-op. -/
theorem C5_reaction_guards_witness :
    reaction_added ⟨["CMAIN", "CTEST"], some "CTEST", "BBOT"⟩
        ⟨"CTEST", "yes", true, "OP", "OP"⟩ true true true true
        (some ⟨"1", "OP", .OPEN, "1.2", "CTEST", none, none⟩) = true ∧
    reaction_added ⟨["CMAIN", "CTEST"], some "CTEST", "BBOT"⟩
        ⟨"CMAIN", "yes", true, "OP", "OP"⟩ true true true true
        (some ⟨"1", "OP", .OPEN, "1.2", "CMAIN", none, none⟩) = false := by
  constructor
  · exact (C5_reaction_guards ⟨["CMAIN", "CTEST"], some "CTEST", "BBOT"⟩
      ⟨"CTEST", "yes", true, "OP", "OP"⟩
      (some ⟨"1", "OP", .OPEN, "1.2", "CTEST", none, none⟩) (by decide) rfl rfl).mpr
      ⟨⟨"1", "OP", .OPEN, "1.2", "CTEST", none, none⟩, rfl, rfl, rfl, by decide,
       Or.inr rfl⟩
  · have h := (C5_reaction_guards ⟨["CMAIN", "CTEST"], some "CTEST", "BBOT"⟩
      ⟨"CMAIN", "yes", true, "OP", "OP"⟩
      (some ⟨"1", "OP", .OPEN, "1.2", "CMAIN", none, none⟩) (by decide) rfl rfl)
    have hneg : ¬ (reaction_added ⟨["CMAIN", "CTEST"], some "CTEST", "BBOT"⟩
        ⟨"CMAIN", "yes", true, "OP", "OP"⟩ true true true true
        (some ⟨"1", "OP", .OPEN, "1.2", "CMAIN", none, none⟩) = true) := by
      rw [h]
      rintro ⟨st, hst, -, -, -, hlast⟩
      cases hst
      rcases hlast with hne | htest
      · exact hne rfl
      · simp at htest
    simpa using hneg

/-- C6: on an OPEN round, confirming records the point under the year
computed from the round's thread timestamp: the score at that year key
rises by exactly one, every other year map is untouched, and the stored
scores do not depend on the wall-clock time of the confirmation. -/
theorem C6_year_from_thread_timestamp :
    ∀ (w : World) (data : SolvePromptPayload) (now : String) (st : RoundState),
      w.round = some st → st.status = .OPEN → data.threadTs = st.threadTs →
      0 ≤ getScore w.scoreboard (getYearFromTimestamp st.threadTs) data.guessAuthorId →
      (getScore ((confirm_solve data now w).1).scoreboard
          (getYearFromTimestamp st.threadTs) data.guessAuthorId =
        getScore w.scoreboard (getYearFromTimestamp st.threadTs) data.guessAuthorId + 1) ∧
      (∀ y', y' ≠ getYearFromTimestamp st.threadTs →
        yearScores ((confirm_solve data now w).1).scoreboard y' =
          yearScores w.scoreboard y') ∧
      (∀ now', ((confirm_solve data now' w).1).scoreboard.scoresByYear =
        ((confirm_solve data now w).1).scoreboard.scoresByYear) := by
  intro w data now st h ho hts hnn
  rw [← hts] at hnn ⊢
  have hok := addPoints_ok now data.guessAuthorId (getYearFromTimestamp data.threadTs) 1
    w.scoreboard (by omega)
  refine ⟨?_, ?_, ?_⟩
  · simp only [confirm_solve, h, ho]
    simp [hok, getScore_addPoints_self]
  · intro y' hy
    simp only [confirm_solve, h, ho]
    simp [hok, yearScores_addPoints_other _ _ _ _ _ _ hy]
  · intro now'
    have hok' := addPoints_ok now' data.guessAuthorId (getYearFromTimestamp data.threadTs) 1
      w.scoreboard (by omega)
    simp only [confirm_solve, h, ho]
    simp [hok, hok']

/-- Witness for C6: a round whose thread was created on
2023-12-31 (UTC seconds 1703980800), confirmed at a 2025 wall-clock
time, records the point under "2023". -/
theorem C6_year_from_thread_timestamp_witness :
    getYearFromTimestamp "1703980800.000000" = "2023" ∧
    getScore ((confirm_solve ⟨"C1", "1703980800.000000", "UB", "9.9", "q", "a", "D1", "5.5"⟩
        "2025-01-01T00:00:00.000Z"
        ⟨some ⟨"1", "OP", .OPEN, "1703980800.000000", "C1", none, none⟩,
         ⟨[], [], "t0"⟩⟩).1).scoreboard "2023" "UB" =
      getScore (⟨[], [], "t0"⟩ : ScoreboardData) "2023" "UB" + 1 := by
  refine ⟨by decide, ?_⟩
  have h := (C6_year_from_thread_timestamp
    ⟨some ⟨"1", "OP", .OPEN, "1703980800.000000", "C1", none, none⟩, ⟨[], [], "t0"⟩⟩
    ⟨"C1", "1703980800.000000", "UB", "9.9", "q", "a", "D1", "5.5"⟩
    "2025-01-01T00:00:00.000Z"
    ⟨"1", "OP", .OPEN, "1703980800.000000", "C1", none, none⟩
    rfl rfl rfl (by decide)).1
  have hyear : getYearFromTimestamp "1703980800.000000" = "2023" := by decide
  rw [hyear] at h
  exact h

/-! ### Question-count lemmas for close/create -/

theorem getQCount_removeQuestion_self (now u y : String) (d : ScoreboardData) :
    getQCount (removeQuestion now u y d) y u = max 0 (getQCount d y u - 1) := by
  simp only [removeQuestion, updateScoreboard, removeQuestionFn]
  by_cases hpos : (0 : Int) < max 0 ((alGet (yearQuestions d y) u).getD 0 - 1)
  · rw [if_pos hpos]
    simp [getQCount, yearQuestions, alGet_alSet]
  · rw [if_neg hpos]
    simp only [getQCount, yearQuestions, alGet_alSet]
    simp [alGet_alDrop]
    have h1 := not_lt.mp hpos
    have h2 := le_trans (le_max_right (0 : Int) ((alGet (yearQuestions d y) u).getD 0 - 1)) h1
    simp only [yearQuestions] at h2
    omega

theorem getQCount_removeQuestion_other (now u y y' u' : String) (d : ScoreboardData)
    (hne : ¬(y' = y ∧ u' = u)) :
    getQCount (removeQuestion now u y d) y' u' = getQCount d y' u' := by
  simp only [removeQuestion, updateScoreboard, removeQuestionFn]
  by_cases hy : y' = y
  · subst hy
    have hu : u' ≠ u := fun hu => hne ⟨rfl, hu⟩
    by_cases hpos : (0 : Int) < max 0 ((alGet (yearQuestions d y') u).getD 0 - 1) <;>
      [rw [if_pos hpos]; rw [if_neg hpos]] <;>
      simp [getQCount, yearQuestions, alGet_alSet, alGet_alDrop, Ne.symm hu]
  · have hy2 : y ≠ y' := fun h => hy h.symm
    by_cases hpos : (0 : Int) < max 0 ((alGet (yearQuestions d y) u).getD 0 - 1) <;>
      [rw [if_pos hpos]; rw [if_neg hpos]] <;>
      simp [getQCount, yearQuestions, alGet_alSet, hy2]

theorem getQCount_addQuestion_self (now u y : String) (d : ScoreboardData) :
    getQCount (addQuestion now u y d) y u = getQCount d y u + 1 := by
  simp [addQuestion, updateScoreboard, addQuestionFn, getQCount, yearQuestions, alGet_alSet]

theorem getQCount_addQuestion_other (now u y y' u' : String) (d : ScoreboardData)
    (hne : ¬(y' = y ∧ u' = u)) :
    getQCount (addQuestion now u y d) y' u' = getQCount d y' u' := by
  simp only [addQuestion, updateScoreboard, addQuestionFn]
  by_cases hy : y' = y
  · subst hy
    have hu : u' ≠ u := fun hu => hne ⟨rfl, hu⟩
    simp [getQCount, yearQuestions, alGet_alSet, Ne.symm hu]
  · have hy2 : y ≠ y' := fun h => hy h.symm
    simp [getQCount, yearQuestions, alGet_alSet, hy2]

/-- C9: closing an OPEN round (by its OP) transitions it to CLOSED and
decrements the OP's question count for the round's year by exactly one;
`removeQuestion` after `addQuestion` restores every question count (the
close reverses the increment applied at round creation); and a close of
an already-SOLVED round is rejected before any mutation. -/
theorem C9_close_reverses_question_count :
    (∀ (w : World) (userId expectedOp threadTs now : String) (st : RoundState),
        w.round = some st → st.status = .OPEN → userId = expectedOp →
        ((close_round userId expectedOp threadTs now w).1).round =
          some { st with status := .CLOSED } ∧
        (1 ≤ getQCount w.scoreboard (getYearFromTimestamp threadTs) st.op →
          getQCount ((close_round userId expectedOp threadTs now w).1).scoreboard
              (getYearFromTimestamp threadTs) st.op =
            getQCount w.scoreboard (getYearFromTimestamp threadTs) st.op - 1)) ∧
    (∀ (d : ScoreboardData) (now now' u y : String), 0 ≤ getQCount d y u →
        ∀ y' u', getQCount (removeQuestion now' u y (addQuestion now u y d)) y' u' =
          getQCount d y' u') ∧
    (∀ (w : World) (userId expectedOp threadTs now : String) (st : RoundState),
        w.round = some st → st.status = .SOLVED → userId = expectedOp →
        close_round userId expectedOp threadTs now w =
          (w, some "Cannot close a solved round.")) := by
  refine ⟨?_, ?_, ?_⟩
  · intro w userId expectedOp threadTs now st h ho he
    have hred : close_round userId expectedOp threadTs now w =
        ({ round := some { st with status := .CLOSED },
           scoreboard := removeQuestion now st.op (getYearFromTimestamp threadTs) w.scoreboard },
         some "Round closed.") := by
      simp [close_round, validateOpAndRound, he, h, ho]
    refine ⟨by rw [hred], fun hcnt => ?_⟩
    rw [hred]
    simp only []
    rw [getQCount_removeQuestion_self]
    omega
  · intro d now now' u y hnn y' u'
    by_cases hk : y' = y ∧ u' = u
    · obtain ⟨rfl, rfl⟩ := hk
      rw [getQCount_removeQuestion_self, getQCount_addQuestion_self]
      omega
    · rw [getQCount_removeQuestion_other _ _ _ _ _ _ hk, getQCount_addQuestion_other _ _ _ _ _ _ hk]
  · intro w userId expectedOp threadTs now st h hs he
    simp [close_round, validateOpAndRound, he, h, hs]

/-- Witness for C9: closing a concrete OPEN round started by "OP" in
2023 reverses the creation-time increment, and closing a SOLVED round
is rejected. -/
theorem C9_close_reverses_question_count_witness :
    ((close_round "OP" "OP" "1703980800.000000" "t2"
        ⟨some ⟨"1", "OP", .OPEN, "1703980800.000000", "C1", none, none⟩,
         ⟨[], [("2023", [("OP", 1)])], "t0"⟩⟩).1).round =
      some ⟨"1", "OP", .CLOSED, "1703980800.000000", "C1", none, none⟩ ∧
    getQCount ((close_round "OP" "OP" "1703980800.000000" "t2"
        ⟨some ⟨"1", "OP", .OPEN, "1703980800.000000", "C1", none, none⟩,
         ⟨[], [("2023", [("OP", 1)])], "t0"⟩⟩).1).scoreboard
        (getYearFromTimestamp "1703980800.000000") "OP" = 0 ∧
    close_round "OP" "OP" "1.2" "t2"
        ⟨some ⟨"1", "OP", .SOLVED, "1.2", "C1", none, some "a"⟩, ⟨[], [], "t0"⟩⟩ =
      (⟨some ⟨"1", "OP", .SOLVED, "1.2", "C1", none, some "a"⟩, ⟨[], [], "t0"⟩⟩,
       some "Cannot close a solved round.") := by
  have h := C9_close_reverses_question_count.1
    ⟨some ⟨"1", "OP", .OPEN, "1703980800.000000", "C1", none, none⟩,
     ⟨[], [("2023", [("OP", 1)])], "t0"⟩⟩
    "OP" "OP" "1703980800.000000" "t2"
    ⟨"1", "OP", .OPEN, "1703980800.000000", "C1", none, none⟩ rfl rfl rfl
  refine ⟨h.1, ?_, ?_⟩
  · have h2 := h.2 (by decide)
    rw [h2]
    decide
  · exact C9_close_reverses_question_count.2.2
      ⟨some ⟨"1", "OP", .SOLVED, "1.2", "C1", none, some "a"⟩, ⟨[], [], "t0"⟩⟩
      "OP" "OP" "1.2" "t2" ⟨"1", "OP", .SOLVED, "1.2", "C1", none, some "a"⟩ rfl rfl rfl

/-- Witness for C7: removing a count of 1 deletes the entry; removing
from an identity with no entry leaves every count unchanged. -/
theorem C7_removeQuestion_witness :
    alGet (yearQuestions (removeQuestion "t1" "U1" "2024"
      ⟨[], [("2024", [("U1", 1), ("U2", 5)])], "t0"⟩) "2024") "U1" = none ∧
    getQCount (removeQuestion "t1" "U9" "2024"
      ⟨[], [("2024", [("U1", 1), ("U2", 5)])], "t0"⟩) "2024" "U2" =
      getQCount ⟨[], [("2024", [("U1", 1), ("U2", 5)])], "t0"⟩ "2024" "U2" := by
  constructor
  · exact (C7_removeQuestion ⟨[], [("2024", [("U1", 1), ("U2", 5)])], "t0"⟩ "t1" "U1" "2024").1
      (by decide)
  · exact (C7_removeQuestion ⟨[], [("2024", [("U1", 1), ("U2", 5)])], "t0"⟩ "t1" "U9" "2024").2
      (by decide) "2024" "U2"


/-! ### Claim C2: codec round trip -/

/-- C2: for every valid Round value `r` (all combinations of the optional
question and answer fields present or absent), decoding the encoding of
`r` yields `r` again: `parseRoundState (encodeRoundState r)` returns
exactly the runtime object `r` was serialized from, and that object
determines `r` uniquely. -/
theorem C2_codec_round_trip (r : RoundState) :
    parseRoundState (encodeRoundState r) = some r.toJson ∧
    ∀ r2 : RoundState, r.toJson = r2.toJson → r = r2 := by
  constructor
  · rw [parseRoundState, encodeRoundState, decode_b64_json]
    simp [toJson_truthy]
  · exact fun r2 h => toJson_inj r r2 h

theorem C2_codec_round_trip_witness :
    parseRoundState (encodeRoundState
        { version := "1", op := "U1", status := .OPEN, threadTs := "12.3",
          channelId := "C1", question := some "who?", answer := none }) =
      some (RoundState.toJson
        { version := "1", op := "U1", status := .OPEN, threadTs := "12.3",
          channelId := "C1", question := some "who?", answer := none }) ∧
    ({ version := "1", op := "U1", status := .OPEN, threadTs := "12.3",
       channelId := "C1", question := some "who?", answer := none } : RoundState) =
      { version := "1", op := "U1", status := .OPEN, threadTs := "12.3",
        channelId := "C1", question := some "who?", answer := none } :=
  ⟨(C2_codec_round_trip _).1, (C2_codec_round_trip _).2 _ rfl⟩

/-! ### Claim C8: legacy fixed grammar -/

/-- C8 (amended: the third field of the grammar is labelled `threadTs`,
not `threadId`): the legacy decoder accepts the fixed-order line format
`[logic_round v<digits>] op=<word> status=<word> threadTs=<digits-dots>
channelId=<word> [answer=<text>]`, and for every such line whose status
token is not one of OPEN, SOLVED or CLOSED the parse fails (returns
null) rather than producing a round with a new state. -/
theorem C8_legacy_grammar (ver opg st ts ch : List Char) (ans : Option (List Char))
    (hver : ver ≠ [] ∧ ∀ c ∈ ver, c.isDigit = true)
    (hop : opg ≠ [] ∧ ∀ c ∈ opg, wordChar c = true)
    (hst : st ≠ [] ∧ ∀ c ∈ st, wordChar c = true)
    (hts : ts ≠ [] ∧ ∀ c ∈ ts, tsChar c = true)
    (hch : ch ≠ [] ∧ ∀ c ∈ ch, wordChar c = true)
    (hans : ∀ a ∈ ans, a ≠ [] ∧ ∀ c ∈ a, (!(c = ']')) = true) :
    parseRoundState (mkLegacyLine ver opg st ts ch ans) =
      (statusOfText (String.mk st)).map (fun sv => RoundState.toJson
        { version := String.mk ver, op := String.mk opg, status := sv,
          threadTs := String.mk ts, channelId := String.mk ch,
          question := none, answer := ans.map String.mk }) := by
  have hdec : decodeRoundState (mkLegacyLine ver opg st ts ch ans) = none :=
    decode_line_none _
  have hfind := legacyFind_run ver opg st ts ch ans hver.1 hver.2 hop.1 hop.2
    hst.1 hst.2 hts.1 hts.2 hch.1 hch.2 hans
  rw [parseRoundState, hdec]
  simp only []
  rw [hfind]
  cases hso : statusOfText (String.mk st) <;> simp [legacyRound, hso]

theorem C8_legacy_grammar_witness :
    parseRoundState (mkLegacyLine ['1'] ['U', '1'] ['O', 'P', 'E', 'N']
        ['1', '2', '.', '3'] ['C', '1'] (some ['f', 'o', 'o'])) =
      (statusOfText (String.mk ['O', 'P', 'E', 'N'])).map (fun sv => RoundState.toJson
        { version := String.mk ['1'], op := String.mk ['U', '1'], status := sv,
          threadTs := String.mk ['1', '2', '.', '3'], channelId := String.mk ['C', '1'],
          question := none, answer := (some ['f', 'o', 'o']).map String.mk }) :=
  C8_legacy_grammar _ _ _ _ _ _ ⟨by decide, by decide⟩ ⟨by decide, by decide⟩
    ⟨by decide, by decide⟩ ⟨by decide, by decide⟩ ⟨by decide, by decide⟩
    (fun a ha => by simp at ha; subst ha; exact ⟨by decide, by decide⟩)

/-- A line written with the field label `threadId`, as the original
claim text spells the grammar, is rejected: the grammar's third field
is literally `threadTs=`. -/
theorem C8_threadId_counterexample :
    parseRoundState (String.mk
      (['[', 'l', 'o', 'g', 'i', 'c', '_', 'r', 'o', 'u', 'n', 'd', ' ', 'v'] ++
        ['1', ']', ' ', 'o', 'p', '=', 'U', '1', ' ',
         's', 't', 'a', 't', 'u', 's', '=', 'O', 'P', 'E', 'N', ' ',
         't', 'h', 'r', 'e', 'a', 'd', 'I', 'd', '=', '1', '2', '.', '3', ' ',
         'c', 'h', 'a', 'n', 'n', 'e', 'l', 'I', 'd', '=', 'C', '1'])) = none := by
  rw [parseRoundState, decode_line_none]
  simp only []
  rw [show legacyFind (String.mk
      (['[', 'l', 'o', 'g', 'i', 'c', '_', 'r', 'o', 'u', 'n', 'd', ' ', 'v'] ++
        ['1', ']', ' ', 'o', 'p', '=', 'U', '1', ' ',
         's', 't', 'a', 't', 'u', 's', '=', 'O', 'P', 'E', 'N', ' ',
         't', 'h', 'r', 'e', 'a', 'd', 'I', 'd', '=', '1', '2', '.', '3', ' ',
         'c', 'h', 'a', 'n', 'n', 'e', 'l', 'I', 'd', '=', 'C', '1'])).data =
      none from by decide]
  rfl

/-! ### Claim C10: the decode path performs no validation -/

/-- C10 (amended: base64 of a truthy JSON value is treated as a round
control message; falsy JSON decodes but falls through to the legacy
parser): the decode path performs no structural validation — base64 of
the JSON literal 1 parses to a value that is the encoding of no Round,
and base64 of any truthy JSON value is returned as a round. -/
theorem C10_decode_no_validation :
    (parseRoundState (b64encode (utf8Encode (jsonStringify (Json.jnum 1)))) =
        some (Json.jnum 1) ∧
      ∀ r : RoundState, r.toJson ≠ Json.jnum 1) ∧
    ∀ j : Json, jsTruthy j = true →
      parseRoundState (b64encode (utf8Encode (jsonStringify j))) = some j := by
  have huniv : ∀ j : Json, jsTruthy j = true →
      parseRoundState (b64encode (utf8Encode (jsonStringify j))) = some j := by
    intro j hj
    rw [parseRoundState, decode_b64_json]
    simp [hj]
  refine ⟨⟨huniv (Json.jnum 1) (by decide), ?_⟩, huniv⟩
  intro r h
  cases r
  simp [RoundState.toJson] at h

theorem C10_decode_no_validation_witness :
    parseRoundState (b64encode (utf8Encode (jsonStringify (Json.jstr "hi")))) =
      some (Json.jstr "hi") :=
  C10_decode_no_validation.2 (Json.jstr "hi") (by decide)

/-- The original claim overstates the decode path: base64 of the valid
JSON literal null decodes but is falsy, so `parseRoundState` falls back
to the legacy parser and returns null — not a round control message. -/
theorem C10_decode_counterexample :
    jsTruthy Json.jnull = false ∧
    parseRoundState (b64encode (utf8Encode (jsonStringify Json.jnull))) = none := by
  refine ⟨rfl, ?_⟩
  rw [parseRoundState, decode_b64_json]
  simp only [jsTruthy, Bool.false_eq_true, if_false]
  rw [show legacyFind (b64encode (utf8Encode (jsonStringify Json.jnull))).data =
      none from rfl]
  rfl

end LogicBot
